import Mathlib

/-!
Verification of the logic-gates desktop application's core model.

The Rust source is shallowly embedded: `usize`-backed identifiers become
`Nat`, `HashMap` becomes an association list (`List (key × value)`) whose
iteration order is the list order (Rust's `HashMap` iteration order is
unspecified; wherever a result depends on that order, the theorems below
make the dependence explicit), and every Rust panic (`expect`, `unwrap`,
map indexing) is modelled by `Option`/`Except` failure.
-/

set_option autoImplicit false
set_option linter.unusedSectionVars false

namespace LGD

/-! ## Association lists (model of `std::collections::HashMap`)

`alookup` models indexing/`get` (first matching key — keys are unique in a
real `HashMap`, so this is faithful); `insertA` models `insert` (replace
the value at an existing key in place, otherwise append); `updateA` models
`get_mut` followed by a mutation of the found entry.
-/

section AList

variable {κ α : Type} [DecidableEq κ]

def alookup : List (κ × α) → κ → Option α
  | [], _ => none
  | (k', v) :: t, k => if k' = k then some v else alookup t k

def insertA : List (κ × α) → κ → α → List (κ × α)
  | [], k, v => [(k, v)]
  | (k', v') :: t, k, v => if k' = k then (k, v) :: t else (k', v') :: insertA t k v

def updateA : List (κ × α) → κ → (α → α) → List (κ × α)
  | [], _, _ => []
  | (k', v') :: t, k, f => if k' = k then (k', f v') :: t else (k', v') :: updateA t k f

def keysOf (l : List (κ × α)) : List κ := l.map Prod.fst

end AList

/-! ## `src/id.rs`: identifiers and the allocator -/

/-- Model of `Id`, a newtype over `usize` (ordered and hashed by value). -/
abbrev Id := Nat

/-- Model of `IdGenerator`: the `inner` counter.  `generate` returns the
current counter and increments it. -/
def IdGenerator.generate (inner : Nat) : Id × Nat := (inner, inner + 1)

/-! ## `src/logic_gate.rs`: connection points, connections, gates -/

inductive ConnectionPoint where
  | input (id : Id)
  | output (id : Id)
  | middleSignal (id : Id)
  | gateInput (gate : Id) (inp : Id)
  | gateOutput (gate : Id) (outp : Id)
  deriving DecidableEq, Repr

/-- Model of `Connection { start, end }` (`end` is a Lean keyword, so the
second field is called `stop`). -/
structure Connection where
  start : ConnectionPoint
  stop : ConnectionPoint
  deriving DecidableEq, Repr

mutual
/-- Model of `enum LogicGate`: a NAND gate carries two `(Id, bool)` input
slots and one `(Id, bool)` output slot; a custom gate wraps a nested map. -/
inductive LogicGate where
  | nand (in1 in2 output : Id × Bool)
  | custom (map : LogicGateMap)

/-- Model of `struct LogicGateMap` (one constructor; the `HashMap` fields
become association lists, `id_generator` becomes the counter). -/
inductive LogicGateMap where
  | mk (inputs outputs middleSignals : List (Id × Bool))
       (gates : List (Id × LogicGate))
       (connections : List (Id × Connection))
       (idGenerator : Nat)
end

def LogicGateMap.inputs : LogicGateMap → List (Id × Bool)
  | .mk i _ _ _ _ _ => i

def LogicGateMap.outputs : LogicGateMap → List (Id × Bool)
  | .mk _ o _ _ _ _ => o

def LogicGateMap.middleSignals : LogicGateMap → List (Id × Bool)
  | .mk _ _ m _ _ _ => m

def LogicGateMap.gates : LogicGateMap → List (Id × LogicGate)
  | .mk _ _ _ g _ _ => g

def LogicGateMap.connections : LogicGateMap → List (Id × Connection)
  | .mk _ _ _ _ c _ => c

def LogicGateMap.idGenerator : LogicGateMap → Nat
  | .mk _ _ _ _ _ n => n

/-- Model of `LogicGateMap::empty()`. -/
def LogicGateMap.empty : LogicGateMap := .mk [] [] [] [] [] 0

def LogicGateMap.withInputs : LogicGateMap → List (Id × Bool) → LogicGateMap
  | .mk _ o m g c n, i => .mk i o m g c n

def LogicGateMap.withOutputs : LogicGateMap → List (Id × Bool) → LogicGateMap
  | .mk i _ m g c n, o => .mk i o m g c n

def LogicGateMap.withMiddleSignals : LogicGateMap → List (Id × Bool) → LogicGateMap
  | .mk i o _ g c n, m => .mk i o m g c n

def LogicGateMap.withGates : LogicGateMap → List (Id × LogicGate) → LogicGateMap
  | .mk i o m _ c n, g => .mk i o m g c n

def LogicGateMap.withConnections : LogicGateMap → List (Id × Connection) → LogicGateMap
  | .mk i o m g _ n, c => .mk i o m g c n

def LogicGateMap.withIdGenerator : LogicGateMap → Nat → LogicGateMap
  | .mk i o m g c _, n => .mk i o m g c n

/-- Model of `LogicGateMap::input_by_id` (`self.inputs[&id]`; the missing-key
panic is modelled by `none`). -/
def LogicGateMap.inputById (m : LogicGateMap) (id : Id) : Option Bool :=
  alookup m.inputs id

/-- Model of `LogicGateMap::output_by_id` (`self.outputs[&id]`). -/
def LogicGateMap.outputById (m : LogicGateMap) (id : Id) : Option Bool :=
  alookup m.outputs id

/-- Model of `LogicGateMap::set_input` (a plain `HashMap::insert`: it creates
the entry when the key is absent). -/
def LogicGateMap.setInput (m : LogicGateMap) (id : Id) (v : Bool) : LogicGateMap :=
  m.withInputs (insertA m.inputs id v)

/-- Model of `LogicGateMap::set_output` (a plain `HashMap::insert`). -/
def LogicGateMap.setOutput (m : LogicGateMap) (id : Id) (v : Bool) : LogicGateMap :=
  m.withOutputs (insertA m.outputs id v)

/-- Model of `LogicGate::get_input`.  The outer `Option` models a panic:
for `Custom`, the Rust code is `Some(map.input_by_id(id))` where
`input_by_id` indexes the inner `HashMap` and panics on a missing key.
The inner `Option` is the `Option<bool>` the Rust function returns. -/
def LogicGate.getInput : LogicGate → Id → Option (Option Bool)
  | .nand (id1, v1) (id2, v2) _, id =>
      if id = id1 then some (some v1)
      else if id = id2 then some (some v2)
      else some none
  | .custom m, id =>
      match m.inputById id with
      | some v => some (some v)
      | none => none

/-- Model of `LogicGate::get_output` (same panic convention as `getInput`;
the Nand branch is `(id == *idq).then_some(*q)`). -/
def LogicGate.getOutput : LogicGate → Id → Option (Option Bool)
  | .nand _ _ (idq, q), id => some (if id = idq then some q else none)
  | .custom m, id =>
      match m.outputById id with
      | some v => some (some v)
      | none => none

/-- Model of `LogicGate::set_input`: for Nand, `if id == id1 { v1 = v } else
if id == id2 { v2 = v }` (silent no-op otherwise); for Custom it delegates to
`LogicGateMap::set_input`, i.e. a `HashMap::insert` into the inner inputs. -/
def LogicGate.setInput : LogicGate → Id → Bool → LogicGate
  | .nand (id1, v1) (id2, v2) q, id, nv =>
      if id = id1 then .nand (id1, nv) (id2, v2) q
      else if id = id2 then .nand (id1, v1) (id2, nv) q
      else .nand (id1, v1) (id2, v2) q
  | .custom m, id, nv => .custom (m.setInput id nv)

/-- Model of `LogicGate::set_output`. -/
def LogicGate.setOutput : LogicGate → Id → Bool → LogicGate
  | .nand i1 i2 (idq, q), id, nv =>
      if id = idq then .nand i1 i2 (idq, nv) else .nand i1 i2 (idq, q)
  | .custom m, id, nv => .custom (m.setOutput id nv)

/-- Spec-side predicate for the phrase "the identifier belongs to this gate"
(as an input slot): one of the Nand's two input identifiers, or a key of the
wrapped circuit's input map. -/
def LogicGate.hasInputId : LogicGate → Id → Bool
  | .nand (id1, _) (id2, _) _, id => id = id1 || id = id2
  | .custom m, id => (alookup m.inputs id).isSome

/-- Spec-side predicate for "the identifier belongs to this gate" as an
output slot. -/
def LogicGate.hasOutputId : LogicGate → Id → Bool
  | .nand _ _ (idq, _), id => id = idq
  | .custom m, id => (alookup m.outputs id).isSome

/-- Model of `LogicGateMap::connection_point_value`; `none` models the
panics (`self.gates[gate]` on a missing gate, and the `.expect` on the
`Option` returned by `get_input`/`get_output`). -/
def LogicGateMap.connectionPointValue (m : LogicGateMap) :
    ConnectionPoint → Option Bool
  | .gateInput g i => do
      let gate ← alookup m.gates g
      let r ← gate.getInput i
      r
  | .gateOutput g o => do
      let gate ← alookup m.gates g
      let r ← gate.getOutput o
      r
  | .input id => alookup m.inputs id
  | .output id => alookup m.outputs id
  | .middleSignal id => alookup m.middleSignals id

/-- One iteration of the connection loop in `LogicGateMap::step`: read the
start value from the original (pre-step) circuit `orig`, write it into the
accumulating new state `acc`.  `none` models the panics (missing source, or
`gates.get_mut(..).expect(..)` on a missing destination gate). -/
def applyConnection (orig acc : LogicGateMap) (c : Connection) :
    Option LogicGateMap := do
  let inputValue ← orig.connectionPointValue c.start
  match c.stop with
  | .input id => some (acc.withInputs (insertA acc.inputs id inputValue))
  | .output id => some (acc.withOutputs (insertA acc.outputs id inputValue))
  | .middleSignal id =>
      some (acc.withMiddleSignals (insertA acc.middleSignals id inputValue))
  | .gateInput g i => do
      let _ ← alookup acc.gates g
      some (acc.withGates (updateA acc.gates g (fun gate => gate.setInput i inputValue)))
  | .gateOutput g o => do
      let _ ← alookup acc.gates g
      some (acc.withGates (updateA acc.gates g (fun gate => gate.setOutput o inputValue)))

/-- The connection loop of `LogicGateMap::step`, folded left over the
connections in iteration order. -/
def applyConnections (orig : LogicGateMap) :
    LogicGateMap → List Connection → Option LogicGateMap
  | acc, [] => some acc
  | acc, c :: rest => do
      let acc' ← applyConnection orig acc c
      applyConnections orig acc' rest

mutual
/-- Model of `LogicGate::step`: Nand recomputes the output slot as
`!(v1 && v2)` from the pre-step input values, keeping all identifiers and
the input values; Custom recursively steps the wrapped circuit. -/
def LogicGate.step : LogicGate → Option LogicGate
  | .nand (id1, v1) (id2, v2) (idq, _) =>
      some (.nand (id1, v1) (id2, v2) (idq, !(v1 && v2)))
  | .custom m => do
      let m' ← LogicGateMap.step m
      some (.custom m')

/-- The gate loop of `LogicGateMap::step`: every gate is replaced by its own
`step` result.  (The Rust loop writes `self.gates[id].step()` through
`new_map`; since `new_map` is a clone of `self` and `HashMap` keys are
unique, that lookup always finds the entry's own gate.) -/
def stepGates : List (Id × LogicGate) → Option (List (Id × LogicGate))
  | [] => some []
  | (i, g) :: rest => do
      let g' ← LogicGate.step g
      let rest' ← stepGates rest
      some ((i, g') :: rest')

/-- Model of `LogicGateMap::step`: clone, step every gate, then apply every
connection (reading sources from the pre-step circuit). -/
def LogicGateMap.step : LogicGateMap → Option LogicGateMap
  | .mk ins outs mids gates conns gen => do
      let gs ← stepGates gates
      applyConnections (.mk ins outs mids gates conns gen)
        (.mk ins outs mids gs conns gen) (conns.map Prod.snd)
end

/-- Model of `LogicGateMap::create_input`. -/
def LogicGateMap.createInput (m : LogicGateMap) : Id × LogicGateMap :=
  let (id, gen') := IdGenerator.generate m.idGenerator
  (id, (m.withInputs (insertA m.inputs id false)).withIdGenerator gen')

/-- Model of `LogicGateMap::create_output`. -/
def LogicGateMap.createOutput (m : LogicGateMap) : Id × LogicGateMap :=
  let (id, gen') := IdGenerator.generate m.idGenerator
  (id, (m.withOutputs (insertA m.outputs id false)).withIdGenerator gen')

/-- Insertion sort on identifiers, modelling `Vec::sort` in
`GateCreationInfo::new` (identifiers are distinct, so stability is moot). -/
def insertSorted (x : Id) : List Id → List Id
  | [] => [x]
  | y :: t => if x ≤ y then x :: y :: t else y :: insertSorted x t

def sortIds : List Id → List Id
  | [] => []
  | x :: t => insertSorted x (sortIds t)

/-- Model of `struct GateCreationInfo`. -/
structure GateCreationInfo where
  gateId : Id
  inputs : List Id
  outputs : List Id
  deriving DecidableEq, Repr

/-- Model of `GateCreationInfo::new` (sorts both identifier lists). -/
def GateCreationInfo.new (g : Id) (ins outs : List Id) : GateCreationInfo :=
  ⟨g, sortIds ins, sortIds outs⟩

/-- Model of `GateCreationInfo::input_connection` (`self.inputs[index]`
panics out of bounds, modelled by `none`). -/
def GateCreationInfo.inputConnection (info : GateCreationInfo) (index : Nat) :
    Option ConnectionPoint :=
  (info.inputs.get? index).map (fun i => .gateInput info.gateId i)

def GateCreationInfo.inputCount (info : GateCreationInfo) : Nat :=
  info.inputs.length

/-- Model of `GateCreationInfo::output_connection`. -/
def GateCreationInfo.outputConnection (info : GateCreationInfo) (index : Nat) :
    Option ConnectionPoint :=
  (info.outputs.get? index).map (fun o => .gateOutput info.gateId o)

def GateCreationInfo.outputCount (info : GateCreationInfo) : Nat :=
  info.outputs.length

/-- Model of `LogicGateMap::create_nand_gate`: allocate the gate id then the
two input ids then the output id, register the Nand with inputs false and
output true, return the creation record. -/
def LogicGateMap.createNandGate (m : LogicGateMap) :
    GateCreationInfo × LogicGateMap :=
  let (id, g1) := IdGenerator.generate m.idGenerator
  let (i1, g2) := IdGenerator.generate g1
  let (i2, g3) := IdGenerator.generate g2
  let (q, g4) := IdGenerator.generate g3
  let m' := (m.withGates (insertA m.gates id
    (.nand (i1, false) (i2, false) (q, true)))).withIdGenerator g4
  (GateCreationInfo.new id [i1, i2] [q], m')

/-- Model of `LogicGateMap::create_custom_gate`. -/
def LogicGateMap.createCustomGate (m : LogicGateMap) (gate : LogicGateMap) :
    GateCreationInfo × LogicGateMap :=
  let (id, gen') := IdGenerator.generate m.idGenerator
  let ins := gate.inputs.map Prod.fst
  let outs := gate.outputs.map Prod.fst
  let m' := (m.withGates (insertA m.gates id (.custom gate))).withIdGenerator gen'
  (GateCreationInfo.new id ins outs, m')

/-- Model of `LogicGateMap::create_connection`. -/
def LogicGateMap.createConnection (m : LogicGateMap) (c : Connection) :
    Id × LogicGateMap :=
  let (id, gen') := IdGenerator.generate m.idGenerator
  (id, (m.withConnections (insertA m.connections id c)).withIdGenerator gen')

/-- The gate's published input-slot identifier list (`[id1, id2]` for Nand,
the wrapped circuit's input keys for Custom), used to state frame
properties of `set_input`. -/
def LogicGate.inputIds : LogicGate → List Id
  | .nand (id1, _) (id2, _) _ => [id1, id2]
  | .custom m => keysOf m.inputs

/-- The gate's published output-slot identifier list. -/
def LogicGate.outputIds : LogicGate → List Id
  | .nand _ _ (idq, _) => [idq]
  | .custom m => keysOf m.outputs

/-! ## String utilities (models of the `str` methods used by `src/parse.rs`)

Rust `&str` values are embedded as `List Char` so that every parser
function is a plain structurally recursive definition the kernel can
evaluate. -/

/-- Rust string slices as character lists. -/
abbrev Str := List Char

/-- Convert a Lean string literal to the embedding. -/
def str (s : String) : Str := s.data

/-- Model of `str::strip_prefix` (`stripKw s p` strips `p` from `s`). -/
def stripKw : Str → Str → Option Str
  | s, [] => some s
  | [], _ :: _ => none
  | c :: s', d :: p' => if c = d then stripKw s' p' else none

/-- Model of `str::trim` (the inputs here are ASCII, where Rust's Unicode
whitespace and `Char.isWhitespace` agree). -/
def trimStr (s : Str) : Str :=
  ((s.dropWhile Char.isWhitespace).reverse.dropWhile Char.isWhitespace).reverse

/-- Accumulator loop of `split_whitespace` (`acc` holds the current word
reversed). -/
def splitWsAux (acc : Str) : Str → List Str
  | [] => if acc = [] then [] else [acc.reverse]
  | c :: rest =>
      if c.isWhitespace then
        if acc = [] then splitWsAux [] rest
        else acc.reverse :: splitWsAux [] rest
      else splitWsAux (c :: acc) rest

/-- Model of `str::split_whitespace` (skips empty tokens). -/
def splitWs (s : Str) : List Str := splitWsAux [] s

/-- Loop of `str::split` on a non-empty separator; `fuel` (initially the
string length, an upper bound on the number of steps) makes the recursion
structural — it is never exhausted for the non-empty separators used here. -/
def splitSeqAux (sep : Str) : Nat → Str → Str → List Str
  | 0, acc, _ => [acc.reverse]
  | _, acc, [] => [acc.reverse]
  | fuel + 1, acc, c :: rest =>
      match stripKw (c :: rest) sep with
      | some rest' => acc.reverse :: splitSeqAux sep fuel [] rest'
      | none => splitSeqAux sep fuel (c :: acc) rest

/-- Model of `str::split` with a string separator (left-to-right,
non-overlapping; empty pieces are kept, as in Rust). -/
def splitSeq (sep s : Str) : List Str := splitSeqAux sep s.length [] s

/-- Model of `[&str]::join(" ")`. -/
def joinSp : List Str → Str
  | [] => []
  | [x] => x
  | x :: xs => x ++ (' ' :: joinSp xs)

/-- Digit-accumulating loop of `usize::from_str`. -/
def digitsToNat (acc : Nat) : Str → Option Nat
  | [] => some acc
  | c :: rest =>
      if c.isDigit then digitsToNat (acc * 10 + (c.toNat - '0'.toNat)) rest
      else none

/-- Model of `str::parse::<usize>()`: an optional leading `+`, then at
least one ASCII digit (overflow is not modelled — the embedded values are
unbounded naturals). -/
def parseUsize : Str → Option Nat
  | [] => none
  | '+' :: rest => match rest with
      | [] => none
      | _ :: _ => digitsToNat 0 rest
  | s => digitsToNat 0 s

/-- Split on a single character, keeping empty pieces (always returns at
least one piece). -/
def splitOnChar (sep : Char) : Str → List Str
  | [] => [[]]
  | c :: rest =>
      if c = sep then [] :: splitOnChar sep rest
      else
        match splitOnChar sep rest with
        | [] => [[c]]
        | p :: ps => (c :: p) :: ps

/-- Strip one trailing carriage return, as `str::lines` does per line. -/
def dropTrailingCR (s : Str) : Str :=
  if s.getLast? = some '\r' then s.dropLast else s

/-- Model of `str::lines`: split on newline, drop a final empty piece,
strip one trailing CR from each line. -/
def linesOf (s : Str) : List Str :=
  let ps := splitOnChar '\n' s
  let ps := if ps.getLast? = some ([] : Str) then ps.dropLast else ps
  ps.map dropTrailingCR

/-! ## `src/render.rs`: the saved render state the parser populates -/

/-- Model of `GateRenderSavedState` (`position: Pos2, name: String`; the
position is stored as the parsed integer pair — `Pos2::new(x as f32,
y as f32)` is exact on these values). -/
structure GateRenderSavedState where
  position : Nat × Nat
  name : Str
  deriving DecidableEq, Repr

/-- Model of `MapRenderSavedState`. -/
structure MapRenderSavedState where
  inputs : List Id
  outputs : List Id
  middleSignals : List (Id × (Nat × Nat))
  gates : List (Id × GateRenderSavedState)
  deriving DecidableEq, Repr

/-- Model of `MapRenderSavedState::new` (`Default::default()`). -/
def MapRenderSavedState.new : MapRenderSavedState := ⟨[], [], [], []⟩

/-- Model of `MapRenderSavedState::has_gate`. -/
def MapRenderSavedState.hasGate (r : MapRenderSavedState) (g : Id) : Bool :=
  (alookup r.gates g).isSome

/-- Model of `MapRenderSavedState::add_input` (`Vec::push`). -/
def MapRenderSavedState.addInput (r : MapRenderSavedState) (id : Id) :
    MapRenderSavedState :=
  { r with inputs := r.inputs ++ [id] }

/-- Model of `MapRenderSavedState::add_output`. -/
def MapRenderSavedState.addOutput (r : MapRenderSavedState) (id : Id) :
    MapRenderSavedState :=
  { r with outputs := r.outputs ++ [id] }

/-- Model of `MapRenderSavedState::add_gate` (`HashMap::insert`). -/
def MapRenderSavedState.addGate (r : MapRenderSavedState) (id : Id)
    (position : Nat × Nat) (name : Str) : MapRenderSavedState :=
  { r with gates := insertA r.gates id ⟨position, name⟩ }

/-- The display name recorded for gate `g` in a layout, used to state the
render-line claims. -/
def recordedName (r : MapRenderSavedState) (g : Id) : Option Str :=
  (alookup r.gates g).map GateRenderSavedState.name

/-! ## `src/parse.rs` -/

/-- Model of `enum LogicGateMapParseError`. -/
inductive LogicGateMapParseError where
  | missingVersionLine
  | invalidVersionLine (line : Str)
  | noCurrentGate (lineNumber : Nat) (line : Str)
  | invalidCustomGate (lineNumber : Nat) (parts : List Str) (line : Str)
  | unrecognisedCommand (lineNumber : Nat) (line : Str)
  | invalidConnectionPoint (lineNumber : Nat) (line : Str) (text : Str)
  | invalidRenderLine (lineNumber : Nat) (line : Str)
  deriving DecidableEq, Repr

/-- The mutable state of the `parse_version_0` loop: the circuits built so
far (keyed by `define_gate` name), their render states, the current gate
name, and the four document-wide symbol tables. -/
structure ParseState where
  results : List (Str × LogicGateMap)
  renderers : List (Str × MapRenderSavedState)
  current : Option Str
  inputs : List (Str × Id)
  outputs : List (Str × Id)
  nands : List (Str × GateCreationInfo)
  customGates : List (Str × GateCreationInfo)

/-- The state at the top of `parse_version_0`. -/
def initParseState : ParseState := ⟨[], [], none, [], [], [], []⟩

/-- Model of `parse_version_0_connection_point`. -/
def parseV0ConnectionPoint (lineNumber : Nat) (line text : Str)
    (inputs outputs : List (Str × Id))
    (nands customGates : List (Str × GateCreationInfo)) :
    Except LogicGateMapParseError ConnectionPoint :=
  let parts := ((splitWs text).map trimStr).filter (fun x => ¬ x = [])
  match parts with
  | [p0] =>
      match alookup inputs p0 with
      | some id => .ok (.input id)
      | none =>
          match alookup outputs p0 with
          | some id => .ok (.output id)
          | none => .error (.invalidConnectionPoint lineNumber line text)
  | [p0, p1, p2] =>
      if p1 = str "in" ∨ p1 = str "out" then
        match parseUsize p2 with
        | none => .error (.invalidConnectionPoint lineNumber line text)
        | some ioIndex =>
            let gate? := match alookup nands p0 with
              | some gate => some gate
              | none => alookup customGates p0
            match gate? with
            | none => .error (.invalidConnectionPoint lineNumber line text)
            | some gate =>
                if p1 = str "in" then
                  if gate.inputCount > ioIndex then
                    match gate.inputConnection ioIndex with
                    | some cp => .ok cp
                    | none => .error (.invalidConnectionPoint lineNumber line text)
                  else .error (.invalidConnectionPoint lineNumber line text)
                else
                  if gate.outputCount > ioIndex then
                    match gate.outputConnection ioIndex with
                    | some cp => .ok cp
                    | none => .error (.invalidConnectionPoint lineNumber line text)
                  else .error (.invalidConnectionPoint lineNumber line text)
      else .error (.invalidConnectionPoint lineNumber line text)
  | _ => .error (.invalidConnectionPoint lineNumber line text)

/-- The `inputs` directive loop: for each name, create an input on the
current circuit, bind the name, register it with the current layout.
(`results.get_mut(current).unwrap()` cannot fail — `current` is always a
key of `results` — so the lookup defaults are never used.) -/
def processInputNames (st : ParseState) (cur : Str) : List Str → ParseState
  | [] => st
  | n :: rest =>
      let m := (alookup st.results cur).getD LogicGateMap.empty
      let created := m.createInput
      processInputNames
        { st with results := insertA st.results cur created.2,
                  inputs := insertA st.inputs n created.1,
                  renderers := updateA st.renderers cur
                    (fun r => r.addInput created.1) }
        cur rest

/-- The `outputs` directive loop. -/
def processOutputNames (st : ParseState) (cur : Str) : List Str → ParseState
  | [] => st
  | n :: rest =>
      let m := (alookup st.results cur).getD LogicGateMap.empty
      let created := m.createOutput
      processOutputNames
        { st with results := insertA st.results cur created.2,
                  outputs := insertA st.outputs n created.1,
                  renderers := updateA st.renderers cur
                    (fun r => r.addOutput created.1) }
        cur rest

/-- The `nands` directive loop. -/
def processNandNames (st : ParseState) (cur : Str) : List Str → ParseState
  | [] => st
  | n :: rest =>
      let m := (alookup st.results cur).getD LogicGateMap.empty
      let created := m.createNandGate
      processNandNames
        { st with results := insertA st.results cur created.2,
                  nands := insertA st.nands n created.1 }
        cur rest

/-- The `custom_gates` directive loop (one `name = source` definition per
list element). -/
def processCustomGateDefs (st : ParseState) (cur : Str) (lineNumber : Nat)
    (line : Str) : List Str → Except LogicGateMapParseError ParseState
  | [] => .ok st
  | d :: rest =>
      let parts := ((splitSeq (str "=") d).map trimStr).filter (fun x => ¬ x = [])
      match parts with
      | [pname, psrc] =>
          match alookup st.results psrc with
          | none => .error (.invalidCustomGate lineNumber [pname, psrc] line)
          | some chosen =>
              let m := (alookup st.results cur).getD LogicGateMap.empty
              let created := m.createCustomGate chosen
              processCustomGateDefs
                { st with results := insertA st.results cur created.2,
                          customGates := insertA st.customGates pname created.1 }
                cur lineNumber line rest
      | _ => .error (.invalidCustomGate lineNumber parts line)

/-- The `connections` directive loop.  Note the source checks `current`
only after both endpoints resolve. -/
def processConnectionDefs (st : ParseState) (lineNumber : Nat) (line : Str) :
    List Str → Except LogicGateMapParseError ParseState
  | [] => .ok st
  | d :: rest =>
      let parts := ((splitSeq (str "=>") d).map trimStr).filter (fun x => ¬ x = [])
      match parts with
      | [p0, p1] =>
          match parseV0ConnectionPoint lineNumber line p0 st.inputs st.outputs
            st.nands st.customGates with
          | .error e => .error e
          | .ok start =>
              match parseV0ConnectionPoint lineNumber line p1 st.inputs
                st.outputs st.nands st.customGates with
              | .error e => .error e
              | .ok stop =>
                  match st.current with
                  | none => .error (.noCurrentGate lineNumber line)
                  | some cur =>
                      let m := (alookup st.results cur).getD LogicGateMap.empty
                      let created := m.createConnection ⟨start, stop⟩
                      processConnectionDefs
                        { st with results := insertA st.results cur created.2 }
                        lineNumber line rest
      | _ => .error (.invalidCustomGate lineNumber parts line)

/-- One iteration of the `parse_version_0` line loop, with the branches in
source order (`define_gate`, `inputs`, `outputs`, `nands`, `custom_gates`,
`connections`, `render_nand_gate`, `render_custom_gate`, else
UnrecognisedCommand). -/
def processLine (st : ParseState) (lineNumber : Nat) (line : Str) :
    Except LogicGateMapParseError ParseState :=
  match stripKw line (str "define_gate ") with
  | some name =>
      .ok { st with results := insertA st.results name LogicGateMap.empty,
                    renderers := insertA st.renderers name MapRenderSavedState.new,
                    current := some name }
  | none =>
  match stripKw line (str "inputs ") with
  | some operands =>
      match st.current with
      | none => .error (.noCurrentGate lineNumber line)
      | some cur =>
          .ok (processInputNames st cur
            (((splitWs operands).map trimStr).filter (fun x => ¬ x = [])))
  | none =>
  match stripKw line (str "outputs ") with
  | some operands =>
      match st.current with
      | none => .error (.noCurrentGate lineNumber line)
      | some cur =>
          .ok (processOutputNames st cur
            (((splitWs operands).map trimStr).filter (fun x => ¬ x = [])))
  | none =>
  match stripKw line (str "nands ") with
  | some operands =>
      match st.current with
      | none => .error (.noCurrentGate lineNumber line)
      | some cur =>
          .ok (processNandNames st cur
            (((splitWs operands).map trimStr).filter (fun x => ¬ x = [])))
  | none =>
  match stripKw line (str "custom_gates ") with
  | some operands =>
      match st.current with
      | none => .error (.noCurrentGate lineNumber line)
      | some cur =>
          processCustomGateDefs st cur lineNumber line
            (((splitSeq (str ", ") operands).map trimStr).filter (fun x => ¬ x = []))
  | none =>
  match stripKw line (str "connections ") with
  | some operands =>
      processConnectionDefs st lineNumber line
        (((splitSeq (str ", ") operands).map trimStr).filter (fun x => ¬ x = []))
  | none =>
  match stripKw line (str "render_nand_gate ") with
  | some operands =>
      let parts := ((splitWs operands).map trimStr).filter (fun x => ¬ x = [])
      match parts with
      | p0 :: p1 :: p2 :: p3 :: prest =>
          match alookup st.nands p0 with
          | none => .error (.invalidRenderLine lineNumber line)
          | some info =>
              match parseUsize p1 with
              | none => .error (.invalidRenderLine lineNumber line)
              | some x =>
                  match parseUsize p2 with
                  | none => .error (.invalidRenderLine lineNumber line)
                  | some y =>
                      let name := joinSp (p3 :: prest)
                      match st.current with
                      | none => .error (.noCurrentGate lineNumber line)
                      | some cur =>
                          .ok { st with renderers :=
                            (updateA st.renderers cur
                              (fun r => r.addGate info.gateId (x, y) name)) }
      | _ => .ok st
  | none =>
  match stripKw line (str "render_custom_gate ") with
  | some operands =>
      let parts := ((splitWs operands).map trimStr).filter (fun x => ¬ x = [])
      match parts with
      | p0 :: p1 :: p2 :: p3 :: prest =>
          match alookup st.customGates p0 with
          | none => .error (.invalidRenderLine lineNumber line)
          | some info =>
              match parseUsize p1 with
              | none => .error (.invalidRenderLine lineNumber line)
              | some x =>
                  match parseUsize p2 with
                  | none => .error (.invalidRenderLine lineNumber line)
                  | some y =>
                      -- faithful off-by-one: the name join starts at the
                      -- 3rd token (`parts[2..]`), so it includes `y`
                      let name := joinSp (p2 :: p3 :: prest)
                      match st.current with
                      | none => .error (.noCurrentGate lineNumber line)
                      | some cur =>
                          .ok { st with renderers :=
                            (updateA st.renderers cur
                              (fun r => r.addGate info.gateId (x, y) name)) }
      | _ => .ok st
  | none => .error (.unrecognisedCommand lineNumber line)

/-- The enumerated line loop of `parse_version_0`. -/
def parseV0Lines (st : ParseState) (lineNumber : Nat) :
    List Str → Except LogicGateMapParseError ParseState
  | [] => .ok st
  | line :: rest =>
      match processLine st lineNumber line with
      | .error e => .error e
      | .ok st' => parseV0Lines st' (lineNumber + 1) rest

/-- The result assembly of `parse_version_0`: one pair per entry of
`results`, the layout kept only when it covers every gate of the circuit
(`renderers.remove(&name).unwrap()` cannot fail — `results` and
`renderers` always share their key set). -/
def assembleResults (st : ParseState) :
    List (LogicGateMap × Option MapRenderSavedState) :=
  st.results.map (fun nm =>
    let r := (alookup st.renderers nm.1).getD MapRenderSavedState.new
    (nm.2, if (keysOf nm.2.gates).all r.hasGate then some r else none))

/-- Model of `parse_version_0`. -/
def parseV0 (lines : List Str) :
    Except LogicGateMapParseError (List (LogicGateMap × Option MapRenderSavedState)) :=
  match parseV0Lines initParseState 0 lines with
  | .error e => .error e
  | .ok st => .ok (assembleResults st)

/-- Model of `parse_text`: filter blank lines, require a `version <n>`
first line, dispatch on the version. -/
def parseText (value : Str) :
    Except LogicGateMapParseError (List (LogicGateMap × Option MapRenderSavedState)) :=
  let ls := (linesOf value).filter (fun l => ¬ (trimStr l).isEmpty)
  match ls with
  | [] => .error .missingVersionLine
  | versionLine :: rest =>
      match (stripKw versionLine (str "version ")).bind parseUsize with
      | none => .error (.invalidVersionLine versionLine)
      | some 0 => parseV0 rest
      | some (_ + 1) => .error (.invalidVersionLine versionLine)

/-- The `define_gate` operands of a line list, for counting blocks. -/
def dgNames (lines : List Str) : List Str :=
  lines.filterMap (fun l => stripKw l (str "define_gate "))

/-- Accumulate a key into a first-occurrence-ordered distinct key list
(exactly how repeated `HashMap::insert` grows the key set). -/
def addKey (ks : List Str) (k : Str) : List Str :=
  if k ∈ ks then ks else ks ++ [k]

/-- The distinct names of a name list, in first-occurrence order. -/
def dedupKeys (names : List Str) : List Str := names.foldl addKey []

/-- Concrete line list with two distinct `define_gate` names, one of them
repeated. -/
def c6Lines : List Str :=
  [str "define_gate a", str "define_gate b", str "define_gate a"]

/-- Concrete mid-parse state used by witnesses: one circuit `g` being
defined, with input name `a` bound to identifier 7. -/
def c8State : ParseState :=
  ⟨[(str "g", LogicGateMap.empty)], [(str "g", MapRenderSavedState.new)],
   some (str "g"), [(str "a", 7)], [], [], []⟩

/-- Concrete mid-parse state used by witnesses: circuit `top` being
defined, NAND instance `n` and custom instance `c` bound. -/
def c7State : ParseState :=
  ⟨[(str "top", LogicGateMap.empty)], [(str "top", MapRenderSavedState.new)],
   some (str "top"), [], [],
   [(str "n", GateCreationInfo.new 3 [4, 5] [6])],
   [(str "c", GateCreationInfo.new 9 [] [])]⟩

/-- Loop invariant of `parse_version_0`: the current gate name, when set,
is a key of `results` (this is why the source's `.unwrap()` calls on
`results.get_mut(current)` and `renderers.get_mut(current)` cannot fail). -/
def stInv (st : ParseState) : Prop :=
  ∀ cur, st.current = some cur → cur ∈ keysOf st.results

mutual
/-- Decidable well-formedness, transcribing the claim's hypothesis: every
identifier referenced by a connection endpoint (start or end) exists in
the corresponding namespace of the circuit — i.e. the endpoint is readable
— and the same holds recursively inside nested custom gates. -/
def LogicGateMap.wf : LogicGateMap → Bool
  | .mk ins outs mids gates conns gen =>
      (conns.all (fun ic =>
        ((LogicGateMap.mk ins outs mids gates conns gen).connectionPointValue
          ic.2.start).isSome &&
        ((LogicGateMap.mk ins outs mids gates conns gen).connectionPointValue
          ic.2.stop).isSome)) &&
      wfGates gates

/-- Well-formedness of every gate in a gate list. -/
def wfGates : List (Id × LogicGate) → Bool
  | [] => true
  | (_, g) :: rest => g.wf && wfGates rest

/-- Well-formedness of a single gate (recursive for custom gates). -/
def LogicGate.wf : LogicGate → Bool
  | .nand _ _ _ => true
  | .custom m => m.wf
end

/-- Concrete circuit used by witnesses: one false input (id 0) whose
connection (id 5) drives the output slot (id 4, currently true) of a NAND
gate (gate id 1, input slots 2 and 3 both false). -/
def overrideExample : LogicGateMap :=
  .mk [(0, false)] [] [] [(1, .nand (2, false) (3, false) (4, true))]
    [(5, ⟨.input 0, .gateOutput 1 4⟩)] 6

/-- Concrete circuit with two connections targeting the same gate-output
slot: input 0 (true) and input 1 (false) both drive output slot 5 of NAND
gate 2. -/
def twoWriterExample : LogicGateMap :=
  .mk [(0, true), (1, false)] [] []
    [(2, .nand (3, false) (4, false) (5, true))]
    [(6, ⟨.input 0, .gateOutput 2 5⟩), (7, ⟨.input 1, .gateOutput 2 5⟩)] 8

theorem sortIds_single (a : Id) : sortIds [a] = [a] := rfl

theorem sortIds_pair (a b : Id) (h : a ≤ b) : sortIds [a, b] = [a, b] := by
  simp [sortIds, insertSorted, h]

/-! ## Association-list lemmas -/

section AListLemmas

variable {κ α : Type} [DecidableEq κ]

@[simp] theorem keysOf_nil : keysOf ([] : List (κ × α)) = [] := rfl

@[simp] theorem keysOf_cons (k : κ) (v : α) (t : List (κ × α)) :
    keysOf ((k, v) :: t) = k :: keysOf t := rfl

@[simp] theorem alookup_nil (k : κ) : alookup ([] : List (κ × α)) k = none := rfl

@[simp] theorem alookup_cons (k' : κ) (v : α) (t : List (κ × α)) (k : κ) :
    alookup ((k', v) :: t) k = if k' = k then some v else alookup t k := rfl

theorem alookup_insertA_self (l : List (κ × α)) (k : κ) (v : α) :
    alookup (insertA l k v) k = some v := by
  induction l with
  | nil => simp [insertA]
  | cons h t ih =>
    obtain ⟨k', v'⟩ := h
    by_cases hk : k' = k <;> simp [insertA, hk, ih]

theorem alookup_insertA_ne (l : List (κ × α)) (k k' : κ) (v : α) (h : k ≠ k') :
    alookup (insertA l k v) k' = alookup l k' := by
  induction l with
  | nil => simp [insertA, h]
  | cons hd t ih =>
    obtain ⟨k₀, v₀⟩ := hd
    by_cases hk : k₀ = k
    · subst hk; simp [insertA, h]
    · simp only [insertA, if_neg hk, alookup_cons, ih]

theorem keysOf_insertA_mem (l : List (κ × α)) (k : κ) (v : α)
    (h : k ∈ keysOf l) : keysOf (insertA l k v) = keysOf l := by
  induction l with
  | nil => simp at h
  | cons hd t ih =>
    obtain ⟨k₀, v₀⟩ := hd
    by_cases hk : k₀ = k
    · subst hk; simp [insertA]
    · have hmem : k ∈ keysOf t := by
        rcases List.mem_cons.mp (by simpa using h) with h' | h'
        · exact absurd h'.symm hk
        · exact h'
      simp [insertA, hk, ih hmem]

theorem keysOf_insertA_not_mem (l : List (κ × α)) (k : κ) (v : α)
    (h : k ∉ keysOf l) : keysOf (insertA l k v) = keysOf l ++ [k] := by
  induction l with
  | nil => simp [insertA]
  | cons hd t ih =>
    obtain ⟨k₀, v₀⟩ := hd
    have hk : k₀ ≠ k := fun hc => h (by simp [hc])
    have ht : k ∉ keysOf t := fun hc => h (by simp [hc])
    simp [insertA, hk, ih ht]

theorem insertA_not_mem (l : List (κ × α)) (k : κ) (v : α)
    (h : k ∉ keysOf l) : insertA l k v = l ++ [(k, v)] := by
  induction l with
  | nil => rfl
  | cons hd t ih =>
    obtain ⟨k₀, v₀⟩ := hd
    have hk : k₀ ≠ k := fun hc => h (by simp [hc])
    have ht : k ∉ keysOf t := fun hc => h (by simp [hc])
    simp [insertA, hk, ih ht]

theorem alookup_updateA_self (l : List (κ × α)) (k : κ) (f : α → α) :
    alookup (updateA l k f) k = (alookup l k).map f := by
  induction l with
  | nil => simp [updateA]
  | cons hd t ih =>
    obtain ⟨k₀, v₀⟩ := hd
    by_cases hk : k₀ = k <;> simp [updateA, hk, ih]

theorem alookup_updateA_ne (l : List (κ × α)) (k k' : κ) (f : α → α) (h : k ≠ k') :
    alookup (updateA l k f) k' = alookup l k' := by
  induction l with
  | nil => simp [updateA]
  | cons hd t ih =>
    obtain ⟨k₀, v₀⟩ := hd
    by_cases hk : k₀ = k
    · subst hk; simp [updateA, h]
    · simp only [updateA, if_neg hk, alookup_cons, ih]

theorem keysOf_updateA (l : List (κ × α)) (k : κ) (f : α → α) :
    keysOf (updateA l k f) = keysOf l := by
  induction l with
  | nil => rfl
  | cons hd t ih =>
    obtain ⟨k₀, v₀⟩ := hd
    by_cases hk : k₀ = k <;> simp [updateA, hk, ih]

theorem alookup_isSome_iff_mem_keysOf (l : List (κ × α)) (k : κ) :
    (alookup l k).isSome = true ↔ k ∈ keysOf l := by
  induction l with
  | nil => simp
  | cons hd t ih =>
    obtain ⟨k₀, v₀⟩ := hd
    by_cases hk : k₀ = k
    · subst hk; simp
    · constructor
      · intro h
        exact List.mem_cons.mpr (Or.inr (ih.mp (by simpa [hk] using h)))
      · intro h
        rcases List.mem_cons.mp h with h' | h'
        · exact absurd h'.symm hk
        · simpa [hk] using ih.mpr h'

end AListLemmas

/-! ## Record-updater and accessor characterizations -/

@[simp] theorem withInputs_inputs (m : LogicGateMap) (x : List (Id × Bool)) :
    (m.withInputs x).inputs = x := by cases m; rfl
@[simp] theorem withInputs_outputs (m : LogicGateMap) (x : List (Id × Bool)) :
    (m.withInputs x).outputs = m.outputs := by cases m; rfl
@[simp] theorem withInputs_middleSignals (m : LogicGateMap) (x : List (Id × Bool)) :
    (m.withInputs x).middleSignals = m.middleSignals := by cases m; rfl
@[simp] theorem withInputs_gates (m : LogicGateMap) (x : List (Id × Bool)) :
    (m.withInputs x).gates = m.gates := by cases m; rfl
@[simp] theorem withInputs_connections (m : LogicGateMap) (x : List (Id × Bool)) :
    (m.withInputs x).connections = m.connections := by cases m; rfl
@[simp] theorem withInputs_idGenerator (m : LogicGateMap) (x : List (Id × Bool)) :
    (m.withInputs x).idGenerator = m.idGenerator := by cases m; rfl

@[simp] theorem withOutputs_inputs (m : LogicGateMap) (x : List (Id × Bool)) :
    (m.withOutputs x).inputs = m.inputs := by cases m; rfl
@[simp] theorem withOutputs_outputs (m : LogicGateMap) (x : List (Id × Bool)) :
    (m.withOutputs x).outputs = x := by cases m; rfl
@[simp] theorem withOutputs_middleSignals (m : LogicGateMap) (x : List (Id × Bool)) :
    (m.withOutputs x).middleSignals = m.middleSignals := by cases m; rfl
@[simp] theorem withOutputs_gates (m : LogicGateMap) (x : List (Id × Bool)) :
    (m.withOutputs x).gates = m.gates := by cases m; rfl
@[simp] theorem withOutputs_connections (m : LogicGateMap) (x : List (Id × Bool)) :
    (m.withOutputs x).connections = m.connections := by cases m; rfl
@[simp] theorem withOutputs_idGenerator (m : LogicGateMap) (x : List (Id × Bool)) :
    (m.withOutputs x).idGenerator = m.idGenerator := by cases m; rfl

@[simp] theorem withMiddleSignals_inputs (m : LogicGateMap) (x : List (Id × Bool)) :
    (m.withMiddleSignals x).inputs = m.inputs := by cases m; rfl
@[simp] theorem withMiddleSignals_outputs (m : LogicGateMap) (x : List (Id × Bool)) :
    (m.withMiddleSignals x).outputs = m.outputs := by cases m; rfl
@[simp] theorem withMiddleSignals_middleSignals (m : LogicGateMap) (x : List (Id × Bool)) :
    (m.withMiddleSignals x).middleSignals = x := by cases m; rfl
@[simp] theorem withMiddleSignals_gates (m : LogicGateMap) (x : List (Id × Bool)) :
    (m.withMiddleSignals x).gates = m.gates := by cases m; rfl
@[simp] theorem withMiddleSignals_connections (m : LogicGateMap) (x : List (Id × Bool)) :
    (m.withMiddleSignals x).connections = m.connections := by cases m; rfl
@[simp] theorem withMiddleSignals_idGenerator (m : LogicGateMap) (x : List (Id × Bool)) :
    (m.withMiddleSignals x).idGenerator = m.idGenerator := by cases m; rfl

@[simp] theorem withGates_inputs (m : LogicGateMap) (x : List (Id × LogicGate)) :
    (m.withGates x).inputs = m.inputs := by cases m; rfl
@[simp] theorem withGates_outputs (m : LogicGateMap) (x : List (Id × LogicGate)) :
    (m.withGates x).outputs = m.outputs := by cases m; rfl
@[simp] theorem withGates_middleSignals (m : LogicGateMap) (x : List (Id × LogicGate)) :
    (m.withGates x).middleSignals = m.middleSignals := by cases m; rfl
@[simp] theorem withGates_gates (m : LogicGateMap) (x : List (Id × LogicGate)) :
    (m.withGates x).gates = x := by cases m; rfl
@[simp] theorem withGates_connections (m : LogicGateMap) (x : List (Id × LogicGate)) :
    (m.withGates x).connections = m.connections := by cases m; rfl
@[simp] theorem withGates_idGenerator (m : LogicGateMap) (x : List (Id × LogicGate)) :
    (m.withGates x).idGenerator = m.idGenerator := by cases m; rfl

@[simp] theorem mapSetInput_inputs (m : LogicGateMap) (i : Id) (v : Bool) :
    (m.setInput i v).inputs = insertA m.inputs i v := by
  cases m; rfl
@[simp] theorem mapSetInput_outputs (m : LogicGateMap) (i : Id) (v : Bool) :
    (m.setInput i v).outputs = m.outputs := by cases m; rfl
@[simp] theorem mapSetOutput_outputs (m : LogicGateMap) (i : Id) (v : Bool) :
    (m.setOutput i v).outputs = insertA m.outputs i v := by cases m; rfl
@[simp] theorem mapSetOutput_inputs (m : LogicGateMap) (i : Id) (v : Bool) :
    (m.setOutput i v).inputs = m.inputs := by cases m; rfl

@[simp] theorem getInput_nand (id1 id2 : Id) (v1 v2 : Bool) (q : Id × Bool) (i : Id) :
    (LogicGate.nand (id1, v1) (id2, v2) q).getInput i =
      (if i = id1 then some (some v1)
       else if i = id2 then some (some v2) else some none) := rfl

@[simp] theorem getInput_custom (mm : LogicGateMap) (i : Id) :
    (LogicGate.custom mm).getInput i = (alookup mm.inputs i).map some := by
  simp only [LogicGate.getInput, LogicGateMap.inputById]
  cases alookup mm.inputs i <;> rfl

@[simp] theorem getOutput_nand (a b : Id × Bool) (idq : Id) (qv : Bool) (o : Id) :
    (LogicGate.nand a b (idq, qv)).getOutput o =
      some (if o = idq then some qv else none) := rfl

@[simp] theorem getOutput_custom (mm : LogicGateMap) (o : Id) :
    (LogicGate.custom mm).getOutput o = (alookup mm.outputs o).map some := by
  simp only [LogicGate.getOutput, LogicGateMap.outputById]
  cases alookup mm.outputs o <;> rfl

theorem setInput_nand (id1 id2 idq : Id) (v1 v2 qv : Bool) (i : Id) (v : Bool) :
    (LogicGate.nand (id1, v1) (id2, v2) (idq, qv)).setInput i v =
      .nand (id1, if i = id1 then v else v1)
        (id2, if ¬ i = id1 ∧ i = id2 then v else v2) (idq, qv) := by
  simp only [LogicGate.setInput]
  by_cases h1 : i = id1
  · simp [h1]
  · by_cases h2 : i = id2
    · subst h2
      simp [h1]
    · simp [h1, h2]

@[simp] theorem setInput_custom (mm : LogicGateMap) (i : Id) (v : Bool) :
    (LogicGate.custom mm).setInput i v = .custom (mm.setInput i v) := rfl

theorem setOutput_nand (a b : Id × Bool) (idq : Id) (qv : Bool) (o : Id) (v : Bool) :
    (LogicGate.nand a b (idq, qv)).setOutput o v =
      .nand a b (idq, if o = idq then v else qv) := by
  simp only [LogicGate.setOutput]
  by_cases h : o = idq <;> simp [h]

@[simp] theorem setOutput_custom (mm : LogicGateMap) (o : Id) (v : Bool) :
    (LogicGate.custom mm).setOutput o v = .custom (mm.setOutput o v) := rfl

@[simp] theorem cpv_input (m : LogicGateMap) (id : Id) :
    m.connectionPointValue (.input id) = alookup m.inputs id := rfl
@[simp] theorem cpv_output (m : LogicGateMap) (id : Id) :
    m.connectionPointValue (.output id) = alookup m.outputs id := rfl
@[simp] theorem cpv_middleSignal (m : LogicGateMap) (id : Id) :
    m.connectionPointValue (.middleSignal id) = alookup m.middleSignals id := rfl
@[simp] theorem cpv_gateInput (m : LogicGateMap) (g i : Id) :
    m.connectionPointValue (.gateInput g i) =
      (alookup m.gates g).bind (fun gate => (gate.getInput i).bind (fun r => r)) := rfl
@[simp] theorem cpv_gateOutput (m : LogicGateMap) (g o : Id) :
    m.connectionPointValue (.gateOutput g o) =
      (alookup m.gates g).bind (fun gate => (gate.getOutput o).bind (fun r => r)) := rfl

theorem applyConnection_stop_input (orig acc : LogicGateMap) (s : ConnectionPoint) (id : Id) :
    applyConnection orig acc ⟨s, .input id⟩ =
      (orig.connectionPointValue s).bind
        (fun v => some (acc.withInputs (insertA acc.inputs id v))) := rfl

theorem applyConnection_stop_output (orig acc : LogicGateMap) (s : ConnectionPoint) (id : Id) :
    applyConnection orig acc ⟨s, .output id⟩ =
      (orig.connectionPointValue s).bind
        (fun v => some (acc.withOutputs (insertA acc.outputs id v))) := rfl

theorem applyConnection_stop_middleSignal (orig acc : LogicGateMap) (s : ConnectionPoint) (id : Id) :
    applyConnection orig acc ⟨s, .middleSignal id⟩ =
      (orig.connectionPointValue s).bind
        (fun v => some (acc.withMiddleSignals (insertA acc.middleSignals id v))) := rfl

theorem applyConnection_stop_gateInput (orig acc : LogicGateMap) (s : ConnectionPoint) (g i : Id) :
    applyConnection orig acc ⟨s, .gateInput g i⟩ =
      (orig.connectionPointValue s).bind (fun v =>
        (alookup acc.gates g).bind (fun _ =>
          some (acc.withGates (updateA acc.gates g (fun gate => gate.setInput i v))))) := rfl

theorem applyConnection_stop_gateOutput (orig acc : LogicGateMap) (s : ConnectionPoint) (g o : Id) :
    applyConnection orig acc ⟨s, .gateOutput g o⟩ =
      (orig.connectionPointValue s).bind (fun v =>
        (alookup acc.gates g).bind (fun _ =>
          some (acc.withGates (updateA acc.gates g (fun gate => gate.setOutput o v))))) := rfl

/-! ## Step-semantics lemmas -/

theorem alookup_insertA_isSome_mono {κ α : Type} [DecidableEq κ]
    (l : List (κ × α)) (k k' : κ) (v : α)
    (h : (alookup l k').isSome = true) :
    (alookup (insertA l k v) k').isSome = true := by
  by_cases hk : k = k'
  · subst hk; simp [alookup_insertA_self]
  · rwa [alookup_insertA_ne _ _ _ _ hk]

theorem setInput_getOutput_eq (G : LogicGate) (i : Id) (v : Bool) (o : Id) :
    (G.setInput i v).getOutput o = G.getOutput o := by
  cases G with
  | nand i1 i2 q =>
    obtain ⟨id1, v1⟩ := i1; obtain ⟨id2, v2⟩ := i2; obtain ⟨idq, qv⟩ := q
    rw [setInput_nand]; simp
  | custom mm => simp

theorem setOutput_getInput_eq (G : LogicGate) (o : Id) (v : Bool) (i : Id) :
    (G.setOutput o v).getInput i = G.getInput i := by
  cases G with
  | nand i1 i2 q =>
    obtain ⟨id1, v1⟩ := i1; obtain ⟨id2, v2⟩ := i2; obtain ⟨idq, qv⟩ := q
    rw [setOutput_nand]; simp
  | custom mm => simp

theorem setInput_getInput_ne (G : LogicGate) (i : Id) (v : Bool) (i' : Id)
    (h : i' ≠ i) : (G.setInput i v).getInput i' = G.getInput i' := by
  cases G with
  | nand i1 i2 q =>
    obtain ⟨id1, v1⟩ := i1; obtain ⟨id2, v2⟩ := i2; obtain ⟨idq, qv⟩ := q
    rw [setInput_nand]
    simp only [getInput_nand]
    by_cases hA : i' = id1
    · have hi : ¬ i = id1 := fun hc => h (hA.trans hc.symm)
      simp [hA, hi]
    · by_cases hB : i' = id2
      · have hi2 : ¬ (¬ i = id1 ∧ i = id2) := fun hc => h (hB.trans hc.2.symm)
        have h21 : ¬ id2 = id1 := fun hc => hA (hB.trans hc)
        simp [hA, hB, hi2, h21]
      · simp [hA, hB]
  | custom mm =>
    simp [alookup_insertA_ne _ _ _ _ (Ne.symm h)]

theorem setInput_getInput_read (G : LogicGate) (i : Id) (v : Bool)
    (h : ((G.getInput i).bind (fun r => r)).isSome = true) :
    (G.setInput i v).getInput i = some (some v) := by
  cases G with
  | nand i1 i2 q =>
    obtain ⟨id1, v1⟩ := i1; obtain ⟨id2, v2⟩ := i2; obtain ⟨idq, qv⟩ := q
    rw [setInput_nand]
    simp only [getInput_nand] at h ⊢
    by_cases h1 : i = id1
    · simp [h1]
    · by_cases h2 : i = id2
      · have h21 : ¬ id2 = id1 := fun hc => h1 (h2.trans hc)
        simp [h1, h2, h21]
      · simp [h1, h2] at h
  | custom mm =>
    simp [alookup_insertA_self]

theorem setOutput_getOutput_ne (G : LogicGate) (o : Id) (v : Bool) (o' : Id)
    (h : o' ≠ o) : (G.setOutput o v).getOutput o' = G.getOutput o' := by
  cases G with
  | nand i1 i2 q =>
    obtain ⟨idq, qv⟩ := q
    rw [setOutput_nand]
    simp only [getOutput_nand]
    by_cases hA : o' = idq
    · have ho : ¬ o = idq := fun hc => h (hA.trans hc.symm)
      simp [hA, ho]
    · simp [hA]
  | custom mm =>
    simp [alookup_insertA_ne _ _ _ _ (Ne.symm h)]

theorem setOutput_getOutput_read (G : LogicGate) (o : Id) (v : Bool)
    (h : ((G.getOutput o).bind (fun r => r)).isSome = true) :
    (G.setOutput o v).getOutput o = some (some v) := by
  cases G with
  | nand i1 i2 q =>
    obtain ⟨idq, qv⟩ := q
    simp only [getOutput_nand] at h
    rw [setOutput_nand]
    by_cases hq : o = idq
    · simp [hq]
    · simp [hq] at h
  | custom mm =>
    simp [alookup_insertA_self]

/-- Inversion of a successful `applyConnection`: the source value was
readable in the pre-step circuit, and the new state is exactly one of the
five endpoint-directed updates. -/
theorem applyConnection_inv (orig acc acc₂ : LogicGateMap) (c : Connection)
    (h : applyConnection orig acc c = some acc₂) :
    ∃ v, orig.connectionPointValue c.start = some v ∧
      ((∃ id, c.stop = .input id ∧
          acc₂ = acc.withInputs (insertA acc.inputs id v)) ∨
       (∃ id, c.stop = .output id ∧
          acc₂ = acc.withOutputs (insertA acc.outputs id v)) ∨
       (∃ id, c.stop = .middleSignal id ∧
          acc₂ = acc.withMiddleSignals (insertA acc.middleSignals id v)) ∨
       (∃ g i gate, c.stop = .gateInput g i ∧ alookup acc.gates g = some gate ∧
          acc₂ = acc.withGates (updateA acc.gates g (fun G => G.setInput i v))) ∨
       (∃ g o gate, c.stop = .gateOutput g o ∧ alookup acc.gates g = some gate ∧
          acc₂ = acc.withGates (updateA acc.gates g (fun G => G.setOutput o v)))) := by
  obtain ⟨s, stop⟩ := c
  cases stop with
  | input id =>
    rw [applyConnection_stop_input] at h
    cases hv : orig.connectionPointValue s with
    | none => rw [hv] at h; simp at h
    | some v =>
      rw [hv] at h
      simp only [Option.some_bind, Option.some_inj] at h
      exact ⟨v, rfl, Or.inl ⟨id, rfl, h.symm⟩⟩
  | output id =>
    rw [applyConnection_stop_output] at h
    cases hv : orig.connectionPointValue s with
    | none => rw [hv] at h; simp at h
    | some v =>
      rw [hv] at h
      simp only [Option.some_bind, Option.some_inj] at h
      exact ⟨v, rfl, Or.inr (Or.inl ⟨id, rfl, h.symm⟩)⟩
  | middleSignal id =>
    rw [applyConnection_stop_middleSignal] at h
    cases hv : orig.connectionPointValue s with
    | none => rw [hv] at h; simp at h
    | some v =>
      rw [hv] at h
      simp only [Option.some_bind, Option.some_inj] at h
      exact ⟨v, rfl, Or.inr (Or.inr (Or.inl ⟨id, rfl, h.symm⟩))⟩
  | gateInput g i =>
    rw [applyConnection_stop_gateInput] at h
    cases hv : orig.connectionPointValue s with
    | none => rw [hv] at h; simp at h
    | some v =>
      rw [hv] at h
      cases hg : alookup acc.gates g with
      | none => rw [hg] at h; simp at h
      | some gate =>
        rw [hg] at h
        simp only [Option.some_bind, Option.some_inj] at h
        exact ⟨v, rfl, Or.inr (Or.inr (Or.inr (Or.inl
          ⟨g, i, gate, rfl, hg, h.symm⟩)))⟩
  | gateOutput g o =>
    rw [applyConnection_stop_gateOutput] at h
    cases hv : orig.connectionPointValue s with
    | none => rw [hv] at h; simp at h
    | some v =>
      rw [hv] at h
      cases hg : alookup acc.gates g with
      | none => rw [hg] at h; simp at h
      | some gate =>
        rw [hg] at h
        simp only [Option.some_bind, Option.some_inj] at h
        exact ⟨v, rfl, Or.inr (Or.inr (Or.inr (Or.inr
          ⟨g, o, gate, rfl, hg, h.symm⟩)))⟩

theorem stepGates_alookup (l l' : List (Id × LogicGate)) (h : stepGates l = some l')
    (g : Id) (G : LogicGate) (hg : alookup l g = some G) :
    ∃ G', alookup l' g = some G' ∧ G.step = some G' := by
  induction l generalizing l' with
  | nil => simp [stepGates] at h; subst h; simp at hg
  | cons hd t ih =>
    obtain ⟨i, G₀⟩ := hd
    simp only [stepGates] at h
    cases hG₀ : G₀.step with
    | none => rw [hG₀] at h; simp at h
    | some G₀' =>
      rw [hG₀] at h
      cases hrest : stepGates t with
      | none => rw [hrest] at h; simp at h
      | some rest' =>
        rw [hrest] at h
        simp at h
        subst h
        by_cases hig : i = g
        · subst hig
          simp at hg
          subst hg
          exact ⟨G₀', by simp, hG₀⟩
        · simp only [alookup_cons, if_neg hig] at hg ⊢
          exact ih _ hrest hg

@[simp] theorem map_some_join {α : Type} (x : Option α) :
    ((x.map some).bind (fun r => r)) = x := by cases x <;> rfl

theorem applyConnection_alookup_inputs_mono (orig acc acc₂ : LogicGateMap)
    (c : Connection) (h : applyConnection orig acc c = some acc₂) (i : Id)
    (hs : (alookup acc.inputs i).isSome = true) :
    (alookup acc₂.inputs i).isSome = true := by
  obtain ⟨v, hv, hcase⟩ := applyConnection_inv orig acc acc₂ c h
  rcases hcase with ⟨id, hstop, rfl⟩ | ⟨id, hstop, rfl⟩ | ⟨id, hstop, rfl⟩ |
    ⟨g, i', gate, hstop, hg, rfl⟩ | ⟨g, o', gate, hstop, hg, rfl⟩
  · simp only [withInputs_inputs]
    exact alookup_insertA_isSome_mono _ _ _ _ hs
  all_goals simpa using hs

theorem applyConnection_alookup_outputs_mono (orig acc acc₂ : LogicGateMap)
    (c : Connection) (h : applyConnection orig acc c = some acc₂) (o : Id)
    (hs : (alookup acc.outputs o).isSome = true) :
    (alookup acc₂.outputs o).isSome = true := by
  obtain ⟨v, hv, hcase⟩ := applyConnection_inv orig acc acc₂ c h
  rcases hcase with ⟨id, hstop, rfl⟩ | ⟨id, hstop, rfl⟩ | ⟨id, hstop, rfl⟩ |
    ⟨g, i', gate, hstop, hg, rfl⟩ | ⟨g, o', gate, hstop, hg, rfl⟩
  · simpa using hs
  · simp only [withOutputs_outputs]
    exact alookup_insertA_isSome_mono _ _ _ _ hs
  all_goals simpa using hs

theorem applyConnections_alookup_inputs_mono (orig : LogicGateMap)
    (l : List Connection) :
    ∀ acc acc₂, applyConnections orig acc l = some acc₂ →
      ∀ i, (alookup acc.inputs i).isSome = true →
        (alookup acc₂.inputs i).isSome = true := by
  induction l with
  | nil =>
    intro acc acc₂ h i hs
    simp only [applyConnections, Option.some_inj] at h
    subst h; exact hs
  | cons c rest ih =>
    intro acc acc₂ h i hs
    simp only [applyConnections] at h
    cases h1 : applyConnection orig acc c with
    | none => rw [h1] at h; simp at h
    | some acc₁ =>
      rw [h1] at h
      simp at h
      exact ih acc₁ acc₂ h i (applyConnection_alookup_inputs_mono _ _ _ _ h1 i hs)

theorem applyConnections_alookup_outputs_mono (orig : LogicGateMap)
    (l : List Connection) :
    ∀ acc acc₂, applyConnections orig acc l = some acc₂ →
      ∀ o, (alookup acc.outputs o).isSome = true →
        (alookup acc₂.outputs o).isSome = true := by
  induction l with
  | nil =>
    intro acc acc₂ h o hs
    simp only [applyConnections, Option.some_inj] at h
    subst h; exact hs
  | cons c rest ih =>
    intro acc acc₂ h o hs
    simp only [applyConnections] at h
    cases h1 : applyConnection orig acc c with
    | none => rw [h1] at h; simp at h
    | some acc₁ =>
      rw [h1] at h
      simp at h
      exact ih acc₁ acc₂ h o (applyConnection_alookup_outputs_mono _ _ _ _ h1 o hs)

theorem step_eq (m : LogicGateMap) :
    m.step = (stepGates m.gates).bind
      (fun gs => applyConnections m (m.withGates gs) (m.connections.map Prod.snd)) := by
  cases m; rfl

theorem step_alookup_inputs_mono (m m' : LogicGateMap) (h : m.step = some m')
    (i : Id) (hs : (alookup m.inputs i).isSome = true) :
    (alookup m'.inputs i).isSome = true := by
  rw [step_eq] at h
  cases hgs : stepGates m.gates with
  | none => rw [hgs] at h; simp at h
  | some gs =>
    rw [hgs] at h
    simp only [Option.some_bind] at h
    exact applyConnections_alookup_inputs_mono m _ _ _ h i (by simpa using hs)

theorem step_alookup_outputs_mono (m m' : LogicGateMap) (h : m.step = some m')
    (o : Id) (hs : (alookup m.outputs o).isSome = true) :
    (alookup m'.outputs o).isSome = true := by
  rw [step_eq] at h
  cases hgs : stepGates m.gates with
  | none => rw [hgs] at h; simp at h
  | some gs =>
    rw [hgs] at h
    simp only [Option.some_bind] at h
    exact applyConnections_alookup_outputs_mono m _ _ _ h o (by simpa using hs)

theorem step_getInput_join_mono (G G' : LogicGate) (h : G.step = some G') (i : Id)
    (hs : ((G.getInput i).bind (fun r => r)).isSome = true) :
    ((G'.getInput i).bind (fun r => r)).isSome = true := by
  cases G with
  | nand i1 i2 q =>
    obtain ⟨id1, v1⟩ := i1; obtain ⟨id2, v2⟩ := i2; obtain ⟨idq, qv⟩ := q
    simp only [LogicGate.step, Option.some_inj] at h
    subst h
    simpa using hs
  | custom mm =>
    simp only [LogicGate.step] at h
    cases hm : mm.step with
    | none => rw [hm] at h; simp at h
    | some mm' =>
      rw [hm] at h
      simp at h
      subst h
      simp only [getInput_custom, map_some_join] at hs ⊢
      exact step_alookup_inputs_mono mm mm' hm i hs

theorem step_getOutput_join_mono (G G' : LogicGate) (h : G.step = some G') (o : Id)
    (hs : ((G.getOutput o).bind (fun r => r)).isSome = true) :
    ((G'.getOutput o).bind (fun r => r)).isSome = true := by
  cases G with
  | nand i1 i2 q =>
    obtain ⟨id1, v1⟩ := i1; obtain ⟨id2, v2⟩ := i2; obtain ⟨idq, qv⟩ := q
    simp only [LogicGate.step, Option.some_inj] at h
    subst h
    by_cases ho : o = idq
    · simp [ho]
    · simp [ho] at hs
  | custom mm =>
    simp only [LogicGate.step] at h
    cases hm : mm.step with
    | none => rw [hm] at h; simp at h
    | some mm' =>
      rw [hm] at h
      simp at h
      subst h
      simp only [getOutput_custom, map_some_join] at hs ⊢
      exact step_alookup_outputs_mono mm mm' hm o hs

theorem cpv_isSome_after_stepGates (m : LogicGateMap) (gs : List (Id × LogicGate))
    (hgs : stepGates m.gates = some gs) (p : ConnectionPoint)
    (hp : (m.connectionPointValue p).isSome = true) :
    ((m.withGates gs).connectionPointValue p).isSome = true := by
  cases p with
  | input id => simpa using hp
  | output id => simpa using hp
  | middleSignal id => simpa using hp
  | gateInput g i =>
    simp only [cpv_gateInput, withGates_gates] at hp ⊢
    cases hg : alookup m.gates g with
    | none => rw [hg] at hp; simp at hp
    | some gate =>
      rw [hg] at hp
      simp only [Option.some_bind] at hp
      obtain ⟨G', hG', hstep⟩ := stepGates_alookup _ _ hgs g gate hg
      rw [hG']
      simp only [Option.some_bind]
      exact step_getInput_join_mono gate G' hstep i hp
  | gateOutput g o =>
    simp only [cpv_gateOutput, withGates_gates] at hp ⊢
    cases hg : alookup m.gates g with
    | none => rw [hg] at hp; simp at hp
    | some gate =>
      rw [hg] at hp
      simp only [Option.some_bind] at hp
      obtain ⟨G', hG', hstep⟩ := stepGates_alookup _ _ hgs g gate hg
      rw [hG']
      simp only [Option.some_bind]
      exact step_getOutput_join_mono gate G' hstep o hp

theorem applyConnection_cpv_isSome_mono (orig acc acc₂ : LogicGateMap)
    (c : Connection) (h : applyConnection orig acc c = some acc₂)
    (p : ConnectionPoint) (hp : (acc.connectionPointValue p).isSome = true) :
    (acc₂.connectionPointValue p).isSome = true := by
  obtain ⟨v, hv, hcase⟩ := applyConnection_inv orig acc acc₂ c h
  rcases hcase with ⟨id, hstop, rfl⟩ | ⟨id, hstop, rfl⟩ | ⟨id, hstop, rfl⟩ |
    ⟨g, i, gate, hstop, hg, rfl⟩ | ⟨g, o, gate, hstop, hg, rfl⟩
  · cases p with
    | input id' =>
      simp only [cpv_input, withInputs_inputs]
      exact alookup_insertA_isSome_mono _ _ _ _ (by simpa using hp)
    | output id' => simpa using hp
    | middleSignal id' => simpa using hp
    | gateInput g' i' => simpa using hp
    | gateOutput g' o' => simpa using hp
  · cases p with
    | input id' => simpa using hp
    | output id' =>
      simp only [cpv_output, withOutputs_outputs]
      exact alookup_insertA_isSome_mono _ _ _ _ (by simpa using hp)
    | middleSignal id' => simpa using hp
    | gateInput g' i' => simpa using hp
    | gateOutput g' o' => simpa using hp
  · cases p with
    | input id' => simpa using hp
    | output id' => simpa using hp
    | middleSignal id' =>
      simp only [cpv_middleSignal, withMiddleSignals_middleSignals]
      exact alookup_insertA_isSome_mono _ _ _ _ (by simpa using hp)
    | gateInput g' i' => simpa using hp
    | gateOutput g' o' => simpa using hp
  · -- a set_input write into gate g
    cases p with
    | input id' => simpa using hp
    | output id' => simpa using hp
    | middleSignal id' => simpa using hp
    | gateInput g' i' =>
      simp only [cpv_gateInput, withGates_gates] at hp ⊢
      by_cases hgg : g = g'
      · subst hgg
        rw [alookup_updateA_self, hg]
        rw [hg] at hp
        simp only [Option.map_some', Option.some_bind] at hp ⊢
        by_cases hii : i' = i
        · subst hii
          rw [setInput_getInput_read gate i' v hp]
          simp
        · rw [setInput_getInput_ne gate i v i' hii]
          exact hp
      · rw [alookup_updateA_ne _ _ _ _ hgg]
        exact hp
    | gateOutput g' o' =>
      simp only [cpv_gateOutput, withGates_gates] at hp ⊢
      by_cases hgg : g = g'
      · subst hgg
        rw [alookup_updateA_self, hg]
        rw [hg] at hp
        simp only [Option.map_some', Option.some_bind] at hp ⊢
        rw [setInput_getOutput_eq]
        exact hp
      · rw [alookup_updateA_ne _ _ _ _ hgg]
        exact hp
  · -- a set_output write into gate g
    cases p with
    | input id' => simpa using hp
    | output id' => simpa using hp
    | middleSignal id' => simpa using hp
    | gateInput g' i' =>
      simp only [cpv_gateInput, withGates_gates] at hp ⊢
      by_cases hgg : g = g'
      · subst hgg
        rw [alookup_updateA_self, hg]
        rw [hg] at hp
        simp only [Option.map_some', Option.some_bind] at hp ⊢
        rw [setOutput_getInput_eq]
        exact hp
      · rw [alookup_updateA_ne _ _ _ _ hgg]
        exact hp
    | gateOutput g' o' =>
      simp only [cpv_gateOutput, withGates_gates] at hp ⊢
      by_cases hgg : g = g'
      · subst hgg
        rw [alookup_updateA_self, hg]
        rw [hg] at hp
        simp only [Option.map_some', Option.some_bind] at hp ⊢
        by_cases hoo : o' = o
        · subst hoo
          rw [setOutput_getOutput_read gate o' v hp]
          simp
        · rw [setOutput_getOutput_ne gate o v o' hoo]
          exact hp
      · rw [alookup_updateA_ne _ _ _ _ hgg]
        exact hp

theorem applyConnections_cpv_isSome_mono (orig : LogicGateMap)
    (l : List Connection) :
    ∀ acc acc₂, applyConnections orig acc l = some acc₂ →
      ∀ p, (acc.connectionPointValue p).isSome = true →
        (acc₂.connectionPointValue p).isSome = true := by
  induction l with
  | nil =>
    intro acc acc₂ h p hp
    simp only [applyConnections, Option.some_inj] at h
    subst h; exact hp
  | cons c rest ih =>
    intro acc acc₂ h p hp
    simp only [applyConnections] at h
    cases h1 : applyConnection orig acc c with
    | none => rw [h1] at h; simp at h
    | some acc₁ =>
      rw [h1] at h
      simp at h
      exact ih acc₁ acc₂ h p (applyConnection_cpv_isSome_mono _ _ _ _ h1 p hp)

theorem applyConnection_cpv_frame (orig acc acc₂ : LogicGateMap) (c : Connection)
    (h : applyConnection orig acc c = some acc₂) (p : ConnectionPoint)
    (hne : c.stop ≠ p) (w : Bool) (hp : acc.connectionPointValue p = some w) :
    acc₂.connectionPointValue p = some w := by
  obtain ⟨v, hv, hcase⟩ := applyConnection_inv orig acc acc₂ c h
  rcases hcase with ⟨id, hstop, rfl⟩ | ⟨id, hstop, rfl⟩ | ⟨id, hstop, rfl⟩ |
    ⟨g, i, gate, hstop, hg, rfl⟩ | ⟨g, o, gate, hstop, hg, rfl⟩
  · cases p with
    | input id' =>
      have hii : id ≠ id' := fun hc => hne (by rw [hstop, hc])
      simp only [cpv_input, withInputs_inputs]
      rw [alookup_insertA_ne _ _ _ _ hii]
      simpa using hp
    | output id' => simpa using hp
    | middleSignal id' => simpa using hp
    | gateInput g' i' => simpa using hp
    | gateOutput g' o' => simpa using hp
  · cases p with
    | input id' => simpa using hp
    | output id' =>
      have hii : id ≠ id' := fun hc => hne (by rw [hstop, hc])
      simp only [cpv_output, withOutputs_outputs]
      rw [alookup_insertA_ne _ _ _ _ hii]
      simpa using hp
    | middleSignal id' => simpa using hp
    | gateInput g' i' => simpa using hp
    | gateOutput g' o' => simpa using hp
  · cases p with
    | input id' => simpa using hp
    | output id' => simpa using hp
    | middleSignal id' =>
      have hii : id ≠ id' := fun hc => hne (by rw [hstop, hc])
      simp only [cpv_middleSignal, withMiddleSignals_middleSignals]
      rw [alookup_insertA_ne _ _ _ _ hii]
      simpa using hp
    | gateInput g' i' => simpa using hp
    | gateOutput g' o' => simpa using hp
  · cases p with
    | input id' => simpa using hp
    | output id' => simpa using hp
    | middleSignal id' => simpa using hp
    | gateInput g' i' =>
      simp only [cpv_gateInput, withGates_gates] at hp ⊢
      by_cases hgg : g = g'
      · subst hgg
        have hii : i ≠ i' := fun hc => hne (by rw [hstop, hc])
        rw [alookup_updateA_self, hg]
        rw [hg] at hp
        simp only [Option.map_some', Option.some_bind] at hp ⊢
        rw [setInput_getInput_ne gate i v i' (Ne.symm hii)]
        exact hp
      · rw [alookup_updateA_ne _ _ _ _ hgg]
        exact hp
    | gateOutput g' o' =>
      simp only [cpv_gateOutput, withGates_gates] at hp ⊢
      by_cases hgg : g = g'
      · subst hgg
        rw [alookup_updateA_self, hg]
        rw [hg] at hp
        simp only [Option.map_some', Option.some_bind] at hp ⊢
        rw [setInput_getOutput_eq]
        exact hp
      · rw [alookup_updateA_ne _ _ _ _ hgg]
        exact hp
  · cases p with
    | input id' => simpa using hp
    | output id' => simpa using hp
    | middleSignal id' => simpa using hp
    | gateInput g' i' =>
      simp only [cpv_gateInput, withGates_gates] at hp ⊢
      by_cases hgg : g = g'
      · subst hgg
        rw [alookup_updateA_self, hg]
        rw [hg] at hp
        simp only [Option.map_some', Option.some_bind] at hp ⊢
        rw [setOutput_getInput_eq]
        exact hp
      · rw [alookup_updateA_ne _ _ _ _ hgg]
        exact hp
    | gateOutput g' o' =>
      simp only [cpv_gateOutput, withGates_gates] at hp ⊢
      by_cases hgg : g = g'
      · subst hgg
        have hoo : o ≠ o' := fun hc => hne (by rw [hstop, hc])
        rw [alookup_updateA_self, hg]
        rw [hg] at hp
        simp only [Option.map_some', Option.some_bind] at hp ⊢
        rw [setOutput_getOutput_ne gate o v o' (Ne.symm hoo)]
        exact hp
      · rw [alookup_updateA_ne _ _ _ _ hgg]
        exact hp

theorem applyConnections_cpv_frame (orig : LogicGateMap) (l : List Connection)
    (p : ConnectionPoint) (hall : ∀ c ∈ l, c.stop ≠ p) :
    ∀ acc acc₂ w, applyConnections orig acc l = some acc₂ →
      acc.connectionPointValue p = some w →
      acc₂.connectionPointValue p = some w := by
  induction l with
  | nil =>
    intro acc acc₂ w h hp
    simp only [applyConnections, Option.some_inj] at h
    subst h; exact hp
  | cons c rest ih =>
    intro acc acc₂ w h hp
    simp only [applyConnections] at h
    cases h1 : applyConnection orig acc c with
    | none => rw [h1] at h; simp at h
    | some acc₁ =>
      rw [h1] at h
      simp at h
      exact ih (fun c' hc' => hall c' (List.mem_cons_of_mem _ hc')) acc₁ acc₂ w h
        (applyConnection_cpv_frame orig acc acc₁ c h1 p
          (hall c (List.mem_cons_self c rest)) w hp)

theorem applyConnection_cpv_write (orig acc acc₂ : LogicGateMap) (c : Connection)
    (h : applyConnection orig acc c = some acc₂) (v : Bool)
    (hv : orig.connectionPointValue c.start = some v)
    (hr : (acc.connectionPointValue c.stop).isSome = true) :
    acc₂.connectionPointValue c.stop = some v := by
  obtain ⟨v', hv', hcase⟩ := applyConnection_inv orig acc acc₂ c h
  rw [hv] at hv'
  have hvv : v' = v := (Option.some_inj.mp hv').symm
  subst v'
  rcases hcase with ⟨id, hstop, rfl⟩ | ⟨id, hstop, rfl⟩ | ⟨id, hstop, rfl⟩ |
    ⟨g, i, gate, hstop, hg, rfl⟩ | ⟨g, o, gate, hstop, hg, rfl⟩
  · rw [hstop]
    simp only [cpv_input, withInputs_inputs]
    exact alookup_insertA_self _ _ _
  · rw [hstop]
    simp only [cpv_output, withOutputs_outputs]
    exact alookup_insertA_self _ _ _
  · rw [hstop]
    simp only [cpv_middleSignal, withMiddleSignals_middleSignals]
    exact alookup_insertA_self _ _ _
  · rw [hstop] at hr ⊢
    simp only [cpv_gateInput, withGates_gates] at hr ⊢
    rw [alookup_updateA_self, hg]
    rw [hg] at hr
    simp only [Option.map_some', Option.some_bind] at hr ⊢
    rw [setInput_getInput_read gate i v hr]
    rfl
  · rw [hstop] at hr ⊢
    simp only [cpv_gateOutput, withGates_gates] at hr ⊢
    rw [alookup_updateA_self, hg]
    rw [hg] at hr
    simp only [Option.map_some', Option.some_bind] at hr ⊢
    rw [setOutput_getOutput_read gate o v hr]
    rfl

theorem applyConnections_cons_eq_some (orig acc : LogicGateMap) (c : Connection)
    (rest : List Connection) (res : LogicGateMap)
    (h : applyConnections orig acc (c :: rest) = some res) :
    ∃ acc₁, applyConnection orig acc c = some acc₁ ∧
      applyConnections orig acc₁ rest = some res := by
  simp only [applyConnections] at h
  cases h1 : applyConnection orig acc c with
  | none => rw [h1] at h; simp at h
  | some acc₁ =>
    rw [h1] at h
    simp at h
    exact ⟨acc₁, rfl, h⟩

theorem applyConnections_append (orig : LogicGateMap) (l₁ l₂ : List Connection) :
    ∀ acc, applyConnections orig acc (l₁ ++ l₂) =
      (applyConnections orig acc l₁).bind (fun a => applyConnections orig a l₂) := by
  induction l₁ with
  | nil => intro acc; simp [applyConnections]
  | cons c rest ih =>
    intro acc
    simp only [List.cons_append, applyConnections]
    cases h1 : applyConnection orig acc c <;> simp [h1, ih]

/-! ## Claim theorems -/

/-- C2: stepping a Nand gate returns a Nand gate whose output value is
`!(v1 && v2)` computed from the pre-step input values, with the input slots
(identifiers and values) and the output identifier unchanged; concretely
inputs (true, true) yield output false and the other three input pairs
yield output true. -/
theorem nand_step_truth_table (id1 id2 idq : Id) (v1 v2 qv : Bool) :
    LogicGate.step (.nand (id1, v1) (id2, v2) (idq, qv)) =
      some (.nand (id1, v1) (id2, v2) (idq, !(v1 && v2))) ∧
    LogicGate.step (.nand (id1, true) (id2, true) (idq, qv)) =
      some (.nand (id1, true) (id2, true) (idq, false)) ∧
    LogicGate.step (.nand (id1, true) (id2, false) (idq, qv)) =
      some (.nand (id1, true) (id2, false) (idq, true)) ∧
    LogicGate.step (.nand (id1, false) (id2, true) (idq, qv)) =
      some (.nand (id1, false) (id2, true) (idq, true)) ∧
    LogicGate.step (.nand (id1, false) (id2, false) (idq, qv)) =
      some (.nand (id1, false) (id2, false) (idq, true)) :=
  ⟨rfl, rfl, rfl, rfl, rfl⟩

/-- C9: `create_nand_gate` allocates exactly the four consecutive fresh
identifiers n, n+1, n+2, n+3 (gate id, two input ids, one output id) from
the circuit's allocator (whose counter stood at n and ends at n+4),
registers a Nand gate with both input values false and output value true
under the gate id, leaves every other part of the circuit unchanged, and
returns a creation record carrying exactly those identifiers, with the
input list sorted. -/
theorem create_nand_gate_spec (m : LogicGateMap) :
    (m.createNandGate).1 =
      ⟨m.idGenerator, [m.idGenerator + 1, m.idGenerator + 2], [m.idGenerator + 3]⟩ ∧
    (m.createNandGate).2.gates =
      insertA m.gates m.idGenerator
        (.nand (m.idGenerator + 1, false) (m.idGenerator + 2, false)
          (m.idGenerator + 3, true)) ∧
    (m.createNandGate).2.idGenerator = m.idGenerator + 4 ∧
    (m.createNandGate).2.inputs = m.inputs ∧
    (m.createNandGate).2.outputs = m.outputs ∧
    (m.createNandGate).2.middleSignals = m.middleSignals ∧
    (m.createNandGate).2.connections = m.connections := by
  obtain ⟨i, o, mi, g, c, n⟩ := m
  have hs : sortIds [n + 1, n + 2] = [n + 1, n + 2] :=
    sortIds_pair (n + 1) (n + 2) (Nat.le_succ (n + 1))
  refine ⟨?_, ?_, ?_, ?_, ?_, ?_, ?_⟩ <;>
    simp [LogicGateMap.createNandGate, IdGenerator.generate, GateCreationInfo.new,
      hs, sortIds_single, LogicGateMap.withGates, LogicGateMap.withIdGenerator,
      LogicGateMap.gates, LogicGateMap.inputs, LogicGateMap.outputs,
      LogicGateMap.middleSignals, LogicGateMap.connections,
      LogicGateMap.idGenerator, sortIds, insertSorted]

/-- C3 counterexample: for a Custom gate, `get_input` with an identifier
that does not belong to the gate does NOT return an absent result — it
panics (`self.inputs[&id]` on a missing key, modelled by the outer `none`;
an absent result would be `some none`).  Concretely: the empty wrapped
circuit has no input with identifier 0, yet `get_input 0` fails instead of
returning absent. -/
theorem get_input_custom_missing_id_panics :
    LogicGate.hasInputId (.custom LogicGateMap.empty) 0 = false ∧
    LogicGate.getInput (.custom LogicGateMap.empty) 0 = none ∧
    LogicGate.getInput (.custom LogicGateMap.empty) 0 ≠ some none := by
  decide

/-- C3 amended: `get_input(id)`/`get_output(id)` return the current boolean
value of the slot when `id` belongs to the gate — a Nand's first input slot
yields its stored first value, its second slot its stored second value (the
first slot shadows it when the identifiers collide, as in the Rust
`if`-chain), its output slot the stored output value, and for a Custom gate
the value stored in the wrapped circuit's input/output map under `id` is
returned; when `id` does not belong, a Nand gate returns an absent result
(`some none`, the Rust `None`), but a Custom gate fails (panics on the
inner map lookup, modelled `none`). -/
theorem get_input_output_by_id_spec (g : LogicGate) (id : Id) :
    (∀ id1 v1 id2 v2 q, g = .nand (id1, v1) (id2, v2) q →
      g.getInput id1 = some (some v1) ∧
      (¬ id2 = id1 → g.getInput id2 = some (some v2))) ∧
    (∀ m v, g = .custom m → alookup m.inputs id = some v →
      g.getInput id = some (some v)) ∧
    (g.hasInputId id = false →
      g.getInput id = (match g with | .nand _ _ _ => some none | .custom _ => none)) ∧
    (∀ i1 i2 idq qv, g = .nand i1 i2 (idq, qv) →
      g.getOutput idq = some (some qv)) ∧
    (∀ m v, g = .custom m → alookup m.outputs id = some v →
      g.getOutput id = some (some v)) ∧
    (g.hasOutputId id = false →
      g.getOutput id = (match g with | .nand _ _ _ => some none | .custom _ => none)) := by
  refine ⟨?_, ?_, ?_, ?_, ?_, ?_⟩
  · rintro id1 v1 id2 v2 q rfl
    refine ⟨by simp [LogicGate.getInput], fun h21 => ?_⟩
    simp [LogicGate.getInput, h21]
  · rintro m v rfl hv
    simp [LogicGate.getInput, LogicGateMap.inputById, hv]
  · cases g with
    | nand i1 i2 q =>
      obtain ⟨id1, v1⟩ := i1; obtain ⟨id2, v2⟩ := i2
      intro h
      simp only [LogicGate.hasInputId, Bool.or_eq_false_iff,
        decide_eq_false_iff_not] at h
      simp [LogicGate.getInput, h.1, h.2]
    | custom mm =>
      intro h
      cases hx : alookup mm.inputs id with
      | none => simp [LogicGate.getInput, LogicGateMap.inputById, hx]
      | some v => simp [LogicGate.hasInputId, hx] at h
  · rintro i1 i2 idq qv rfl
    simp [LogicGate.getOutput]
  · rintro m v rfl hv
    simp [LogicGate.getOutput, LogicGateMap.outputById, hv]
  · cases g with
    | nand i1 i2 q =>
      obtain ⟨idq, qv⟩ := q
      intro h
      have hq : ¬ id = idq := by simpa [LogicGate.hasOutputId] using h
      simp [LogicGate.getOutput, hq]
    | custom mm =>
      intro h
      cases hx : alookup mm.outputs id with
      | none => simp [LogicGate.getOutput, LogicGateMap.outputById, hx]
      | some v => simp [LogicGate.hasOutputId, hx] at h

/-- C3 witness: concrete applications of the amended claim — a Nand gate's
two input slots yield exactly their stored values (true and false), and an
unrecognized identifier yields the absent result. -/
theorem get_input_output_by_id_spec_witness :
    LogicGate.getInput (.nand (1, true) (2, false) (3, true)) 1 =
      some (some true) ∧
    LogicGate.getInput (.nand (1, true) (2, false) (3, true)) 2 =
      some (some false) ∧
    LogicGate.getInput (.nand (1, true) (2, false) (3, true)) 5 = some none :=
  ⟨((get_input_output_by_id_spec (.nand (1, true) (2, false) (3, true)) 1).1
      1 true 2 false (3, true) rfl).1,
   ((get_input_output_by_id_spec (.nand (1, true) (2, false) (3, true)) 2).1
      1 true 2 false (3, true) rfl).2 (by decide),
   (get_input_output_by_id_spec
      (.nand (1, true) (2, false) (3, true)) 5).2.2.1 (by decide)⟩

/-- C4 counterexample: for a Custom gate, `set_input` with an identifier
that does not belong to the gate is NOT a no-op: `LogicGateMap::set_input`
is a plain `HashMap::insert`, which creates the entry.  Concretely,
setting input 0 on a custom gate wrapping the empty circuit changes the
gate (its wrapped circuit gains the input entry (0, true)). -/
theorem set_input_custom_missing_id_not_noop :
    LogicGate.hasInputId (.custom LogicGateMap.empty) 0 = false ∧
    LogicGate.setInput (.custom LogicGateMap.empty) 0 true ≠
      .custom LogicGateMap.empty := by
  refine ⟨rfl, ?_⟩
  intro h
  have h2 := congrArg (fun g => g.inputIds) h
  simp [LogicGate.setInput, LogicGateMap.setInput, LogicGateMap.empty,
    LogicGateMap.withInputs, LogicGateMap.inputs, insertA,
    LogicGate.inputIds] at h2

/-- C4 amended: for a Nand gate, `set_input`/`set_output` with an
unrecognized identifier is a no-op and with a recognized identifier
overwrites exactly that slot; for a Custom gate they are `HashMap::insert`
into the wrapped circuit's input/output map, so a recognized identifier
replaces exactly that slot's value (slot identifier lists and every other
slot unchanged), but an unrecognized identifier appends a new entry — the
gate is NOT left unchanged.  In both variants the opposite-direction slots
are never affected. -/
theorem set_input_output_frame_spec (g : LogicGate) (id : Id) (v : Bool) :
    (g.hasInputId id = false →
      (∀ i1 i2 q, g = .nand i1 i2 q → g.setInput id v = g) ∧
      (∀ mm, g = .custom mm →
        g.setInput id v = .custom (mm.withInputs (mm.inputs ++ [(id, v)])))) ∧
    (g.hasInputId id = true →
      (g.setInput id v).getInput id = some (some v) ∧
      (∀ id', id' ≠ id → (g.setInput id v).getInput id' = g.getInput id') ∧
      (g.setInput id v).inputIds = g.inputIds) ∧
    (∀ id', (g.setInput id v).getOutput id' = g.getOutput id') ∧
    (g.setInput id v).outputIds = g.outputIds ∧
    (g.hasOutputId id = false →
      (∀ i1 i2 q, g = .nand i1 i2 q → g.setOutput id v = g) ∧
      (∀ mm, g = .custom mm →
        g.setOutput id v = .custom (mm.withOutputs (mm.outputs ++ [(id, v)])))) ∧
    (g.hasOutputId id = true →
      (g.setOutput id v).getOutput id = some (some v) ∧
      (∀ id', id' ≠ id → (g.setOutput id v).getOutput id' = g.getOutput id') ∧
      (g.setOutput id v).outputIds = g.outputIds) ∧
    (∀ id', (g.setOutput id v).getInput id' = g.getInput id') ∧
    (g.setOutput id v).inputIds = g.inputIds := by
  refine ⟨?_, ?_, ?_, ?_, ?_, ?_, ?_, ?_⟩
  · -- set_input with unrecognized id
    intro h
    constructor
    · rintro ⟨id1, v1⟩ ⟨id2, v2⟩ q rfl
      simp only [LogicGate.hasInputId, Bool.or_eq_false_iff,
        decide_eq_false_iff_not] at h
      simp [LogicGate.setInput, h.1, h.2]
    · rintro mm rfl
      simp only [LogicGate.hasInputId] at h
      have hmem : id ∉ keysOf mm.inputs := fun hc =>
        by simp [(alookup_isSome_iff_mem_keysOf mm.inputs id).mpr hc] at h
      simp [LogicGate.setInput, LogicGateMap.setInput, insertA_not_mem _ _ _ hmem]
  · -- set_input with recognized id
    intro h
    cases g with
    | nand i1 i2 q =>
      obtain ⟨id1, v1⟩ := i1; obtain ⟨id2, v2⟩ := i2
      by_cases h1 : id = id1
      · subst h1
        refine ⟨by simp [LogicGate.setInput, LogicGate.getInput], ?_, ?_⟩
        · intro id' hne
          simp [LogicGate.setInput, LogicGate.getInput, hne]
        · simp [LogicGate.setInput, LogicGate.inputIds]
      · by_cases h2 : id = id2
        · subst h2
          refine ⟨by simp [LogicGate.setInput, LogicGate.getInput, h1,
            Ne.symm h1], ?_, ?_⟩
          · intro id' hne
            by_cases h1' : id' = id1 <;>
              simp [LogicGate.setInput, LogicGate.getInput, h1, h1', hne]
          · simp [LogicGate.setInput, LogicGate.inputIds, h1]
        · simp [LogicGate.hasInputId, h1, h2] at h
    | custom mm =>
      simp only [LogicGate.hasInputId] at h
      refine ⟨?_, ?_, ?_⟩
      · simp [LogicGate.setInput, LogicGateMap.setInput, LogicGate.getInput,
          LogicGateMap.inputById, LogicGateMap.withInputs, LogicGateMap.inputs,
          alookup_insertA_self]
        cases hmk : mm with
        | mk i o ms gs cs n =>
          simp [LogicGateMap.withInputs, LogicGateMap.inputs,
            alookup_insertA_self]
      · intro id' hne
        cases mm with
        | mk i o ms gs cs n =>
          simp [LogicGate.setInput, LogicGateMap.setInput, LogicGate.getInput,
            LogicGateMap.inputById, LogicGateMap.withInputs, LogicGateMap.inputs,
            alookup_insertA_ne _ _ _ _ (Ne.symm hne)]
      · have hmem : id ∈ keysOf mm.inputs :=
          (alookup_isSome_iff_mem_keysOf mm.inputs id).mp h
        cases mm with
        | mk i o ms gs cs n =>
          simp only [LogicGateMap.inputs] at hmem
          simp [LogicGate.setInput, LogicGateMap.setInput, LogicGate.inputIds,
            LogicGateMap.withInputs, LogicGateMap.inputs,
            keysOf_insertA_mem _ _ _ hmem]
  · -- set_input never touches outputs (values)
    intro id'
    cases g with
    | nand i1 i2 q =>
      obtain ⟨id1, v1⟩ := i1; obtain ⟨id2, v2⟩ := i2; obtain ⟨idq, qv⟩ := q
      simp only [LogicGate.setInput]
      by_cases h1 : id = id1
      · rw [if_pos h1]; simp [LogicGate.getOutput]
      · rw [if_neg h1]
        by_cases h2 : id = id2
        · rw [if_pos h2]; simp [LogicGate.getOutput]
        · rw [if_neg h2]
    | custom mm =>
      cases mm with
      | mk i o ms gs cs n =>
        simp [LogicGate.setInput, LogicGateMap.setInput, LogicGate.getOutput,
          LogicGateMap.outputById, LogicGateMap.withInputs, LogicGateMap.outputs]
  · -- set_input never touches output identifier lists
    cases g with
    | nand i1 i2 q =>
      obtain ⟨id1, v1⟩ := i1; obtain ⟨id2, v2⟩ := i2; obtain ⟨idq, qv⟩ := q
      simp only [LogicGate.setInput]
      by_cases h1 : id = id1
      · rw [if_pos h1]; simp [LogicGate.outputIds]
      · rw [if_neg h1]
        by_cases h2 : id = id2
        · rw [if_pos h2]; simp [LogicGate.outputIds]
        · rw [if_neg h2]
    | custom mm =>
      cases mm with
      | mk i o ms gs cs n =>
        simp [LogicGate.setInput, LogicGateMap.setInput, LogicGate.outputIds,
          LogicGateMap.withInputs, LogicGateMap.outputs]
  · -- set_output with unrecognized id
    intro h
    constructor
    · rintro i1 i2 ⟨idq, qv⟩ rfl
      have hq : ¬ id = idq := by simpa [LogicGate.hasOutputId] using h
      simp [LogicGate.setOutput, hq]
    · rintro mm rfl
      simp only [LogicGate.hasOutputId] at h
      have hmem : id ∉ keysOf mm.outputs := fun hc =>
        by simp [(alookup_isSome_iff_mem_keysOf mm.outputs id).mpr hc] at h
      simp [LogicGate.setOutput, LogicGateMap.setOutput, insertA_not_mem _ _ _ hmem]
  · -- set_output with recognized id
    intro h
    cases g with
    | nand i1 i2 q =>
      obtain ⟨idq, qv⟩ := q
      have hq : id = idq := by simpa [LogicGate.hasOutputId] using h
      subst hq
      refine ⟨by simp [LogicGate.setOutput, LogicGate.getOutput], ?_, ?_⟩
      · intro id' hne
        simp [LogicGate.setOutput, LogicGate.getOutput, hne]
      · simp [LogicGate.setOutput, LogicGate.outputIds]
    | custom mm =>
      simp only [LogicGate.hasOutputId] at h
      refine ⟨?_, ?_, ?_⟩
      · cases mm with
        | mk i o ms gs cs n =>
          simp [LogicGate.setOutput, LogicGateMap.setOutput, LogicGate.getOutput,
            LogicGateMap.outputById, LogicGateMap.withOutputs,
            LogicGateMap.outputs, alookup_insertA_self]
      · intro id' hne
        cases mm with
        | mk i o ms gs cs n =>
          simp [LogicGate.setOutput, LogicGateMap.setOutput, LogicGate.getOutput,
            LogicGateMap.outputById, LogicGateMap.withOutputs,
            LogicGateMap.outputs, alookup_insertA_ne _ _ _ _ (Ne.symm hne)]
      · have hmem : id ∈ keysOf mm.outputs :=
          (alookup_isSome_iff_mem_keysOf mm.outputs id).mp h
        cases mm with
        | mk i o ms gs cs n =>
          simp only [LogicGateMap.outputs] at hmem
          simp [LogicGate.setOutput, LogicGateMap.setOutput, LogicGate.outputIds,
            LogicGateMap.withOutputs, LogicGateMap.outputs,
            keysOf_insertA_mem _ _ _ hmem]
  · -- set_output never touches inputs (values)
    intro id'
    cases g with
    | nand i1 i2 q =>
      obtain ⟨idq, qv⟩ := q
      by_cases hq : id = idq <;>
        simp [LogicGate.setOutput, LogicGate.getInput, hq]
    | custom mm =>
      cases mm with
      | mk i o ms gs cs n =>
        simp [LogicGate.setOutput, LogicGateMap.setOutput, LogicGate.getInput,
          LogicGateMap.inputById, LogicGateMap.withOutputs, LogicGateMap.inputs]
  · -- set_output never touches input identifier lists
    cases g with
    | nand i1 i2 q =>
      obtain ⟨idq, qv⟩ := q
      by_cases hq : id = idq <;>
        simp [LogicGate.setOutput, LogicGate.inputIds, hq]
    | custom mm =>
      cases mm with
      | mk i o ms gs cs n =>
        simp [LogicGate.setOutput, LogicGateMap.setOutput, LogicGate.inputIds,
          LogicGateMap.withOutputs, LogicGateMap.inputs]

/-- C4 witness: concrete applications of the amended claim — an
unrecognized identifier leaves a Nand gate unchanged, and a recognized
identifier on a Custom gate overwrites exactly that slot. -/
theorem set_input_output_frame_spec_witness :
    LogicGate.setInput (.nand (1, true) (2, false) (3, true)) 9 false =
      .nand (1, true) (2, false) (3, true) ∧
    (LogicGate.setInput (.custom (.mk [(4, false)] [] [] [] [] 5)) 4 true).getInput 4 =
      some (some true) :=
  ⟨((set_input_output_frame_spec (.nand (1, true) (2, false) (3, true)) 9 false).1
      (by decide)).1 _ _ _ rfl,
   (((set_input_output_frame_spec (.custom (.mk [(4, false)] [] [] [] [] 5)) 4 true).2.1
      (by decide)).1)⟩

/-- C1 counterexample: when two connections target the same `GateOutput`
endpoint, the value observed after one step is the LAST-processed
connection's source value, so the claim's "for every connection ... the
value observed at that gate output slot equals the connection's pre-step
source value" fails for the earlier one.  In `twoWriterExample`, the first
connection's source (input 0) is true, yet after one step the targeted
gate-output slot holds false (the second connection's source). -/
theorem step_connection_value_counterexample :
    (twoWriterExample.connections.map Prod.snd).head? =
      some ⟨.input 0, .gateOutput 2 5⟩ ∧
    twoWriterExample.connectionPointValue (.input 0) = some true ∧
    (twoWriterExample.step).isSome = true ∧
    twoWriterExample.step.bind
      (fun m' => m'.connectionPointValue (.gateOutput 2 5)) = some false :=
  ⟨rfl, rfl, rfl, rfl⟩

/-- C1 amended: step() reads the value at a connection's start endpoint
from the pre-step circuit and writes it to the end endpoint of the new
circuit; provided the end endpoint denotes an existing slot of the
pre-step circuit and the connection is the last one in processing order
targeting that endpoint, the value observed there after one step equals
the connection's pre-step source value — in particular a last-writer
connection into a `GateOutput` endpoint overrides the value the gate's own
combinational step just computed for that slot. -/
theorem step_connection_last_writer (m : LogicGateMap) (c : Connection)
    (l₁ l₂ : List Connection)
    (hsplit : m.connections.map Prod.snd = l₁ ++ c :: l₂)
    (hlast : ∀ c' ∈ l₂, c'.stop ≠ c.stop)
    (hread : (m.connectionPointValue c.stop).isSome = true)
    (hstep : (m.step).isSome = true) :
    m.step.bind (fun m' => m'.connectionPointValue c.stop) =
      m.connectionPointValue c.start := by
  rw [step_eq] at hstep ⊢
  obtain ⟨res, hres⟩ := Option.isSome_iff_exists.mp hstep
  obtain ⟨gs, hgs, happ⟩ := Option.bind_eq_some.mp hres
  rw [hgs, Option.some_bind, hsplit]
  rw [hsplit, applyConnections_append] at happ
  obtain ⟨acc₁, h1, happ2⟩ := Option.bind_eq_some.mp happ
  obtain ⟨acc₂, h2, h3⟩ := applyConnections_cons_eq_some m acc₁ c l₂ res happ2
  obtain ⟨v, hv, -⟩ := applyConnection_inv m acc₁ acc₂ c h2
  have hr0 : ((m.withGates gs).connectionPointValue c.stop).isSome = true :=
    cpv_isSome_after_stepGates m gs hgs c.stop hread
  have hr1 : (acc₁.connectionPointValue c.stop).isSome = true :=
    applyConnections_cpv_isSome_mono m l₁ _ _ h1 c.stop hr0
  have hw : acc₂.connectionPointValue c.stop = some v :=
    applyConnection_cpv_write m acc₁ acc₂ c h2 v hv hr1
  have hfinal : res.connectionPointValue c.stop = some v :=
    applyConnections_cpv_frame m l₂ c.stop hlast acc₂ res v h3 hw
  rw [applyConnections_append, h1, Option.some_bind, happ2, Option.some_bind,
    hfinal, hv]

/-- C1 witness: in `overrideExample`, the sole connection drives the NAND's
output slot from input 0 (false); the gate's own step computes true there,
but after one step the observed value is the connection's source value. -/
theorem step_connection_last_writer_witness :
    (overrideExample.connections.map Prod.snd =
      [] ++ (⟨.input 0, .gateOutput 1 4⟩ : Connection) :: []) ∧
    (overrideExample.connectionPointValue (.gateOutput 1 4)).isSome = true ∧
    (overrideExample.step).isSome = true ∧
    overrideExample.step.bind
      (fun m' => m'.connectionPointValue (.gateOutput 1 4)) =
      overrideExample.connectionPointValue (.input 0) :=
  ⟨rfl, rfl, rfl,
   step_connection_last_writer overrideExample ⟨.input 0, .gateOutput 1 4⟩ [] []
     rfl (by simp) rfl rfl⟩

theorem stepGates_keysOf (l l' : List (Id × LogicGate))
    (h : stepGates l = some l') : keysOf l' = keysOf l := by
  induction l generalizing l' with
  | nil => simp [stepGates] at h; subst h; rfl
  | cons hd t ih =>
    obtain ⟨i, G₀⟩ := hd
    simp only [stepGates] at h
    cases hG₀ : G₀.step with
    | none => rw [hG₀] at h; simp at h
    | some G₀' =>
      rw [hG₀] at h
      cases hrest : stepGates t with
      | none => rw [hrest] at h; simp at h
      | some rest' =>
        rw [hrest] at h
        simp at h
        subst h
        simp [ih rest' hrest]

theorem wf_parts (m : LogicGateMap) (hwf : m.wf = true) :
    (∀ ic ∈ m.connections,
      (m.connectionPointValue (Connection.start ic.2)).isSome = true ∧
      (m.connectionPointValue (Connection.stop ic.2)).isSome = true) ∧
    wfGates m.gates = true := by
  cases m with
  | mk ins outs mids gates conns gen =>
    simp only [LogicGateMap.wf, Bool.and_eq_true, List.all_eq_true] at hwf
    exact ⟨fun ic hic => by simpa [Bool.and_eq_true] using hwf.1 ic hic, hwf.2⟩

theorem applyConnection_keysOf (orig acc acc₂ : LogicGateMap) (c : Connection)
    (h : applyConnection orig acc c = some acc₂)
    (hstop : (orig.connectionPointValue c.stop).isSome = true)
    (hi : keysOf acc.inputs = keysOf orig.inputs)
    (ho : keysOf acc.outputs = keysOf orig.outputs)
    (hm : keysOf acc.middleSignals = keysOf orig.middleSignals) :
    keysOf acc₂.inputs = keysOf orig.inputs ∧
    keysOf acc₂.outputs = keysOf orig.outputs ∧
    keysOf acc₂.middleSignals = keysOf orig.middleSignals ∧
    keysOf acc₂.gates = keysOf acc.gates ∧
    acc₂.connections = acc.connections := by
  obtain ⟨v, hv, hcase⟩ := applyConnection_inv orig acc acc₂ c h
  rcases hcase with ⟨id, hstop', rfl⟩ | ⟨id, hstop', rfl⟩ | ⟨id, hstop', rfl⟩ |
    ⟨g, i, gate, hstop', hg, rfl⟩ | ⟨g, o, gate, hstop', hg, rfl⟩
  · rw [hstop'] at hstop
    simp only [cpv_input] at hstop
    have hmem : id ∈ keysOf acc.inputs := by
      rw [hi]; exact (alookup_isSome_iff_mem_keysOf _ _).mp hstop
    refine ⟨?_, by simpa using ho, by simpa using hm, by simp, by simp⟩
    simp only [withInputs_inputs]
    rw [keysOf_insertA_mem _ _ _ hmem, hi]
  · rw [hstop'] at hstop
    simp only [cpv_output] at hstop
    have hmem : id ∈ keysOf acc.outputs := by
      rw [ho]; exact (alookup_isSome_iff_mem_keysOf _ _).mp hstop
    refine ⟨by simpa using hi, ?_, by simpa using hm, by simp, by simp⟩
    simp only [withOutputs_outputs]
    rw [keysOf_insertA_mem _ _ _ hmem, ho]
  · rw [hstop'] at hstop
    simp only [cpv_middleSignal] at hstop
    have hmem : id ∈ keysOf acc.middleSignals := by
      rw [hm]; exact (alookup_isSome_iff_mem_keysOf _ _).mp hstop
    refine ⟨by simpa using hi, by simpa using ho, ?_, by simp, by simp⟩
    simp only [withMiddleSignals_middleSignals]
    rw [keysOf_insertA_mem _ _ _ hmem, hm]
  · exact ⟨by simpa using hi, by simpa using ho, by simpa using hm,
      by simp [keysOf_updateA], by simp⟩
  · exact ⟨by simpa using hi, by simpa using ho, by simpa using hm,
      by simp [keysOf_updateA], by simp⟩

theorem applyConnections_keysOf (orig : LogicGateMap) (l : List Connection)
    (hall : ∀ c ∈ l, (orig.connectionPointValue c.stop).isSome = true) :
    ∀ acc acc₂, applyConnections orig acc l = some acc₂ →
      keysOf acc.inputs = keysOf orig.inputs →
      keysOf acc.outputs = keysOf orig.outputs →
      keysOf acc.middleSignals = keysOf orig.middleSignals →
      keysOf acc₂.inputs = keysOf orig.inputs ∧
      keysOf acc₂.outputs = keysOf orig.outputs ∧
      keysOf acc₂.middleSignals = keysOf orig.middleSignals ∧
      keysOf acc₂.gates = keysOf acc.gates ∧
      acc₂.connections = acc.connections := by
  induction l with
  | nil =>
    intro acc acc₂ h hi ho hm
    simp only [applyConnections, Option.some_inj] at h
    subst h
    exact ⟨hi, ho, hm, rfl, rfl⟩
  | cons c rest ih =>
    intro acc acc₂ h hi ho hm
    obtain ⟨acc₁, h1, h2⟩ := applyConnections_cons_eq_some orig acc c rest acc₂ h
    obtain ⟨ki, ko, km, kg, kc⟩ := applyConnection_keysOf orig acc acc₁ c h1
      (hall c (List.mem_cons_self c rest)) hi ho hm
    obtain ⟨ki', ko', km', kg', kc'⟩ :=
      ih (fun c' hc' => hall c' (List.mem_cons_of_mem _ hc')) acc₁ acc₂ h2 ki ko km
    exact ⟨ki', ko', km', kg'.trans kg, kc'.trans kc⟩

theorem applyConnection_isSome_of_keys (orig acc : LogicGateMap) (c : Connection)
    (hstart : (orig.connectionPointValue c.start).isSome = true)
    (hstop : (orig.connectionPointValue c.stop).isSome = true)
    (hgk : keysOf acc.gates = keysOf orig.gates) :
    ∃ acc₂, applyConnection orig acc c = some acc₂ ∧
      keysOf acc₂.gates = keysOf acc.gates := by
  obtain ⟨s, stop⟩ := c
  replace hstart : (orig.connectionPointValue s).isSome = true := hstart
  replace hstop : (orig.connectionPointValue stop).isSome = true := hstop
  obtain ⟨v, hv⟩ := Option.isSome_iff_exists.mp hstart
  cases stop with
  | input id =>
    exact ⟨_, by rw [applyConnection_stop_input, hv]; rfl, by simp⟩
  | output id =>
    exact ⟨_, by rw [applyConnection_stop_output, hv]; rfl, by simp⟩
  | middleSignal id =>
    exact ⟨_, by rw [applyConnection_stop_middleSignal, hv]; rfl, by simp⟩
  | gateInput g i =>
    simp only [cpv_gateInput] at hstop
    have hlook : (alookup orig.gates g).isSome = true := by
      cases hx : alookup orig.gates g with
      | none => rw [hx] at hstop; simp at hstop
      | some gate => rfl
    have hmem : g ∈ keysOf acc.gates := by
      rw [hgk]; exact (alookup_isSome_iff_mem_keysOf _ _).mp hlook
    obtain ⟨gate', hg'⟩ :=
      Option.isSome_iff_exists.mp ((alookup_isSome_iff_mem_keysOf _ _).mpr hmem)
    refine ⟨acc.withGates (updateA acc.gates g (fun gate => gate.setInput i v)),
      ?_, by simp [keysOf_updateA]⟩
    rw [applyConnection_stop_gateInput, hv, Option.some_bind, hg',
      Option.some_bind]
  | gateOutput g o =>
    simp only [cpv_gateOutput] at hstop
    have hlook : (alookup orig.gates g).isSome = true := by
      cases hx : alookup orig.gates g with
      | none => rw [hx] at hstop; simp at hstop
      | some gate => rfl
    have hmem : g ∈ keysOf acc.gates := by
      rw [hgk]; exact (alookup_isSome_iff_mem_keysOf _ _).mp hlook
    obtain ⟨gate', hg'⟩ :=
      Option.isSome_iff_exists.mp ((alookup_isSome_iff_mem_keysOf _ _).mpr hmem)
    refine ⟨acc.withGates (updateA acc.gates g (fun gate => gate.setOutput o v)),
      ?_, by simp [keysOf_updateA]⟩
    rw [applyConnection_stop_gateOutput, hv, Option.some_bind, hg',
      Option.some_bind]

theorem applyConnections_isSome_of_keys (orig : LogicGateMap) (l : List Connection)
    (hall : ∀ c ∈ l, (orig.connectionPointValue c.start).isSome = true ∧
      (orig.connectionPointValue c.stop).isSome = true) :
    ∀ acc, keysOf acc.gates = keysOf orig.gates →
      (applyConnections orig acc l).isSome = true := by
  induction l with
  | nil => intro acc _; simp [applyConnections]
  | cons c rest ih =>
    intro acc hgk
    obtain ⟨h1, h2⟩ := hall c (List.mem_cons_self c rest)
    obtain ⟨acc₂, hac, hk⟩ := applyConnection_isSome_of_keys orig acc c h1 h2 hgk
    simp only [applyConnections]
    rw [hac]
    simpa using ih (fun c' hc' => hall c' (List.mem_cons_of_mem _ hc')) acc₂
      (hk.trans hgk)

mutual
theorem wf_step_isSome (m : LogicGateMap) (hwf : m.wf = true) :
    (m.step).isSome = true := by
  obtain ⟨ins, outs, mids, gates, conns, gen⟩ := m
  obtain ⟨hconn, hgates⟩ := wf_parts _ hwf
  rw [step_eq]
  have hsg : (stepGates (LogicGateMap.mk ins outs mids gates conns gen).gates).isSome = true :=
    wfGates_stepGates_isSome gates (by simpa [LogicGateMap.gates] using hgates)
  obtain ⟨gs, hgs⟩ := Option.isSome_iff_exists.mp hsg
  rw [hgs, Option.some_bind]
  refine applyConnections_isSome_of_keys _ _ ?_ _ ?_
  · intro c hc
    obtain ⟨ic, hic, rfl⟩ := List.mem_map.mp hc
    exact hconn ic hic
  · rw [withGates_gates, stepGates_keysOf _ _ hgs]

theorem wfGates_stepGates_isSome (l : List (Id × LogicGate))
    (h : wfGates l = true) : (stepGates l).isSome = true := by
  match l with
  | [] => simp [stepGates]
  | (i, g) :: rest =>
    simp only [wfGates, Bool.and_eq_true] at h
    have h1 := wf_gate_step_isSome g h.1
    have h2 := wfGates_stepGates_isSome rest h.2
    obtain ⟨g', hg'⟩ := Option.isSome_iff_exists.mp h1
    obtain ⟨rest', hrest'⟩ := Option.isSome_iff_exists.mp h2
    simp [stepGates, hg', hrest']

theorem wf_gate_step_isSome (g : LogicGate) (h : g.wf = true) :
    (g.step).isSome = true := by
  match g with
  | .nand a b q =>
    obtain ⟨id1, v1⟩ := a; obtain ⟨id2, v2⟩ := b; obtain ⟨idq, qv⟩ := q
    simp [LogicGate.step]
  | .custom mm =>
    have hs := wf_step_isSome mm (by simpa [LogicGate.wf] using h)
    obtain ⟨mm', hmm'⟩ := Option.isSome_iff_exists.mp hs
    simp [LogicGate.step, hmm']
end

/-- C10: for every well-formed circuit (one in which every identifier
referenced by a connection endpoint exists in the corresponding namespace,
recursively through nested custom gates), step() succeeds and the circuit
it returns has exactly the same identifier key sets for its inputs,
outputs, middle signals and gates as the pre-step circuit, and an
identical connections map — step changes only stored boolean values, never
the topology. -/
theorem step_preserves_topology (m : LogicGateMap) (hwf : m.wf = true) :
    ∃ m', m.step = some m' ∧
      keysOf m'.inputs = keysOf m.inputs ∧
      keysOf m'.outputs = keysOf m.outputs ∧
      keysOf m'.middleSignals = keysOf m.middleSignals ∧
      keysOf m'.gates = keysOf m.gates ∧
      m'.connections = m.connections := by
  obtain ⟨m', hm'⟩ := Option.isSome_iff_exists.mp (wf_step_isSome m hwf)
  refine ⟨m', hm', ?_⟩
  obtain ⟨hconn, hgates⟩ := wf_parts m hwf
  rw [step_eq] at hm'
  obtain ⟨gs, hgs, happ⟩ := Option.bind_eq_some.mp hm'
  have hall : ∀ c ∈ m.connections.map Prod.snd,
      (m.connectionPointValue c.stop).isSome = true := by
    intro c hc
    obtain ⟨ic, hic, rfl⟩ := List.mem_map.mp hc
    exact (hconn ic hic).2
  obtain ⟨ki, ko, km, kg, kc⟩ := applyConnections_keysOf m _ hall _ _ happ
    (by simp) (by simp) (by simp)
  refine ⟨ki, ko, km, ?_, ?_⟩
  · rw [kg, withGates_gates, stepGates_keysOf _ _ hgs]
  · rw [kc, withGates_connections]

/-! ## Parser lemmas -/

theorem stripKw_some_head {l p r : Str} (c : Char)
    (h : stripKw l (c :: p) = some r) : ∃ t, l = c :: t := by
  cases l with
  | nil => simp [stripKw] at h
  | cons c' t =>
    simp only [stripKw] at h
    by_cases hc : c' = c
    · exact ⟨t, by rw [hc]⟩
    · simp [hc] at h

theorem stripKw_eq_append {p : Str} : ∀ {s r : Str},
    stripKw s p = some r → s = p ++ r := by
  induction p with
  | nil =>
    intro s r h
    simp only [stripKw, Option.some_inj] at h
    simp [h]
  | cons d p' ih =>
    intro s r h
    cases s with
    | nil => simp [stripKw] at h
    | cons c s' =>
      simp only [stripKw] at h
      by_cases hc : c = d
      · subst hc
        simp only [if_pos rfl] at h
        simp [ih h]
      · simp [hc] at h

theorem mem_addKey_self (ks : List Str) (k : Str) : k ∈ addKey ks k := by
  by_cases h : k ∈ ks <;> simp [addKey, h]

theorem keysOf_insertA_eq_addKey {α : Type} (l : List (Str × α)) (k : Str) (v : α) :
    keysOf (insertA l k v) = addKey (keysOf l) k := by
  by_cases h : k ∈ keysOf l
  · rw [keysOf_insertA_mem _ _ _ h]; simp [addKey, h]
  · rw [keysOf_insertA_not_mem _ _ _ h]; simp [addKey, h]

theorem processInputNames_spec (cur : Str) (names : List Str) :
    ∀ st : ParseState, cur ∈ keysOf st.results →
    keysOf (processInputNames st cur names).results = keysOf st.results ∧
    (processInputNames st cur names).current = st.current ∧
    (processInputNames st cur names).outputs = st.outputs ∧
    (processInputNames st cur names).nands = st.nands ∧
    (processInputNames st cur names).customGates = st.customGates ∧
    ∀ k, (alookup st.inputs k).isSome = true →
      (alookup (processInputNames st cur names).inputs k).isSome = true := by
  induction names with
  | nil => intro st hmem; exact ⟨rfl, rfl, rfl, rfl, rfl, fun k hk => hk⟩
  | cons n rest ih =>
    intro st hmem
    simp only [processInputNames]
    have hmem₁ : cur ∈ keysOf (insertA st.results cur
        (((alookup st.results cur).getD LogicGateMap.empty).createInput).2) := by
      rw [keysOf_insertA_eq_addKey]; exact mem_addKey_self _ _
    obtain ⟨a, b, c', d, e, f⟩ := ih
      { st with
        results := insertA st.results cur
          (((alookup st.results cur).getD LogicGateMap.empty).createInput).2,
        inputs := insertA st.inputs n
          (((alookup st.results cur).getD LogicGateMap.empty).createInput).1,
        renderers := updateA st.renderers cur
          (fun r => r.addInput (((alookup st.results cur).getD
            LogicGateMap.empty).createInput).1) } hmem₁
    refine ⟨a.trans (keysOf_insertA_mem _ _ _ hmem), b, c', d, e, ?_⟩
    intro k hk
    exact f k (alookup_insertA_isSome_mono _ _ _ _ hk)

theorem processOutputNames_spec (cur : Str) (names : List Str) :
    ∀ st : ParseState, cur ∈ keysOf st.results →
    keysOf (processOutputNames st cur names).results = keysOf st.results ∧
    (processOutputNames st cur names).current = st.current ∧
    (processOutputNames st cur names).inputs = st.inputs ∧
    (processOutputNames st cur names).nands = st.nands ∧
    (processOutputNames st cur names).customGates = st.customGates ∧
    ∀ k, (alookup st.outputs k).isSome = true →
      (alookup (processOutputNames st cur names).outputs k).isSome = true := by
  induction names with
  | nil => intro st hmem; exact ⟨rfl, rfl, rfl, rfl, rfl, fun k hk => hk⟩
  | cons n rest ih =>
    intro st hmem
    simp only [processOutputNames]
    have hmem₁ : cur ∈ keysOf (insertA st.results cur
        (((alookup st.results cur).getD LogicGateMap.empty).createOutput).2) := by
      rw [keysOf_insertA_eq_addKey]; exact mem_addKey_self _ _
    obtain ⟨a, b, c', d, e, f⟩ := ih
      { st with
        results := insertA st.results cur
          (((alookup st.results cur).getD LogicGateMap.empty).createOutput).2,
        outputs := insertA st.outputs n
          (((alookup st.results cur).getD LogicGateMap.empty).createOutput).1,
        renderers := updateA st.renderers cur
          (fun r => r.addOutput (((alookup st.results cur).getD
            LogicGateMap.empty).createOutput).1) } hmem₁
    refine ⟨a.trans (keysOf_insertA_mem _ _ _ hmem), b, c', d, e, ?_⟩
    intro k hk
    exact f k (alookup_insertA_isSome_mono _ _ _ _ hk)

theorem processNandNames_spec (cur : Str) (names : List Str) :
    ∀ st : ParseState, cur ∈ keysOf st.results →
    keysOf (processNandNames st cur names).results = keysOf st.results ∧
    (processNandNames st cur names).current = st.current ∧
    (processNandNames st cur names).inputs = st.inputs ∧
    (processNandNames st cur names).outputs = st.outputs ∧
    (processNandNames st cur names).customGates = st.customGates ∧
    ∀ k, (alookup st.nands k).isSome = true →
      (alookup (processNandNames st cur names).nands k).isSome = true := by
  induction names with
  | nil => intro st hmem; exact ⟨rfl, rfl, rfl, rfl, rfl, fun k hk => hk⟩
  | cons n rest ih =>
    intro st hmem
    simp only [processNandNames]
    have hmem₁ : cur ∈ keysOf (insertA st.results cur
        (((alookup st.results cur).getD LogicGateMap.empty).createNandGate).2) := by
      rw [keysOf_insertA_eq_addKey]; exact mem_addKey_self _ _
    obtain ⟨a, b, c', d, e, f⟩ := ih
      { st with
        results := insertA st.results cur
          (((alookup st.results cur).getD LogicGateMap.empty).createNandGate).2,
        nands := insertA st.nands n
          (((alookup st.results cur).getD LogicGateMap.empty).createNandGate).1 }
      hmem₁
    refine ⟨a.trans (keysOf_insertA_mem _ _ _ hmem), b, c', d, e, ?_⟩
    intro k hk
    exact f k (alookup_insertA_isSome_mono _ _ _ _ hk)

theorem processCustomGateDefs_spec (cur : Str) (ln : Nat) (line : Str)
    (defs : List Str) :
    ∀ st st' : ParseState, cur ∈ keysOf st.results →
      processCustomGateDefs st cur ln line defs = .ok st' →
      keysOf st'.results = keysOf st.results ∧
      st'.current = st.current ∧
      st'.inputs = st.inputs ∧
      st'.outputs = st.outputs ∧
      st'.nands = st.nands ∧
      ∀ k, (alookup st.customGates k).isSome = true →
        (alookup st'.customGates k).isSome = true := by
  induction defs with
  | nil =>
    intro st st' hmem h
    simp only [processCustomGateDefs, Except.ok.injEq] at h
    subst h
    exact ⟨rfl, rfl, rfl, rfl, rfl, fun k hk => hk⟩
  | cons d rest ih =>
    intro st st' hmem h
    simp only [processCustomGateDefs] at h
    split at h
    · split at h
      · simp at h
      · next chosen heq =>
        have hmem₁ : cur ∈ keysOf (insertA st.results cur
            (((alookup st.results cur).getD LogicGateMap.empty).createCustomGate
              chosen).2) := by
          rw [keysOf_insertA_eq_addKey]; exact mem_addKey_self _ _
        obtain ⟨a, b, c', d', e, f⟩ := ih _ _ hmem₁ h
        refine ⟨a.trans (keysOf_insertA_mem _ _ _ hmem), b, c', d', e, ?_⟩
        intro k hk
        exact f k (alookup_insertA_isSome_mono _ _ _ _ hk)
    · simp at h

theorem processConnectionDefs_spec (ln : Nat) (line : Str) (defs : List Str) :
    ∀ st st' : ParseState,
      (∀ c, st.current = some c → c ∈ keysOf st.results) →
      processConnectionDefs st ln line defs = .ok st' →
      keysOf st'.results = keysOf st.results ∧
      st'.current = st.current ∧
      st'.inputs = st.inputs ∧
      st'.outputs = st.outputs ∧
      st'.nands = st.nands ∧
      st'.customGates = st.customGates := by
  induction defs with
  | nil =>
    intro st st' hinv h
    simp only [processConnectionDefs, Except.ok.injEq] at h
    subst h
    exact ⟨rfl, rfl, rfl, rfl, rfl, rfl⟩
  | cons d rest ih =>
    intro st st' hinv h
    simp only [processConnectionDefs] at h
    split at h
    · next p0 p1 hparts =>
      split at h
      · simp at h
      · next s1 hs1 =>
        split at h
        · simp at h
        · next s2 hs2 =>
          split at h
          · simp at h
          · next cur hcur =>
            have hmem : cur ∈ keysOf st.results := hinv cur hcur
            have hmem₁ : ∀ c, st.current = some c → c ∈ keysOf (insertA st.results cur
                (((alookup st.results cur).getD LogicGateMap.empty).createConnection
                  ⟨s1, s2⟩).2) := by
              intro c hc
              rw [hcur] at hc
              obtain rfl : cur = c := Option.some_inj.mp hc
              rw [keysOf_insertA_eq_addKey]
              exact mem_addKey_self _ _
            obtain ⟨a, b, c', d', e, f⟩ := ih
              { st with
                results := insertA st.results cur
                  (((alookup st.results cur).getD
                    LogicGateMap.empty).createConnection ⟨s1, s2⟩).2 }
              st' hmem₁ h
            refine ⟨a.trans (keysOf_insertA_mem _ _ _ hmem), b, c', d', e, f⟩
    · simp at h

/-- The effect of one parser-loop iteration on the result keys, the
symbol tables, and the loop invariant: a `define_gate` line adds its name
to the result keys; every other line preserves them; no line ever drops a
symbol-table binding. -/
theorem processLine_spec (st : ParseState) (ln : Nat) (line : Str)
    (st' : ParseState) (hinv : stInv st) (h : processLine st ln line = .ok st') :
    stInv st' ∧
    keysOf st'.results = (match stripKw line (str "define_gate ") with
      | some nm => addKey (keysOf st.results) nm
      | none => keysOf st.results) ∧
    (∀ k, (alookup st.inputs k).isSome = true →
      (alookup st'.inputs k).isSome = true) ∧
    (∀ k, (alookup st.outputs k).isSome = true →
      (alookup st'.outputs k).isSome = true) ∧
    (∀ k, (alookup st.nands k).isSome = true →
      (alookup st'.nands k).isSome = true) ∧
    (∀ k, (alookup st.customGates k).isSome = true →
      (alookup st'.customGates k).isSome = true) := by
  simp only [processLine] at h
  split at h
  · next name hdg =>
    simp only [Except.ok.injEq] at h
    subst h
    refine ⟨?_, ?_, fun k hk => hk, fun k hk => hk, fun k hk => hk, fun k hk => hk⟩
    · intro c hc
      show c ∈ keysOf (insertA st.results name LogicGateMap.empty)
      rw [keysOf_insertA_eq_addKey]
      have hnc : name = c := Option.some_inj.mp hc
      rw [← hnc]
      exact mem_addKey_self _ _
    · exact keysOf_insertA_eq_addKey _ _ _
  · next hdg =>
    split at h
    · -- inputs
      next ops hin =>
      split at h
      · simp at h
      · next cur hcur =>
        simp only [Except.ok.injEq] at h
        subst h
        obtain ⟨a, b, c', d, e, f⟩ :=
          processInputNames_spec cur _ st (hinv cur hcur)
        refine ⟨?_, a, f, ?_, ?_, ?_⟩
        · intro c hc
          rw [b, hcur] at hc
          obtain rfl : cur = c := Option.some_inj.mp hc
          rw [a]
          exact hinv cur hcur
        · intro k hk; rw [c']; exact hk
        · intro k hk; rw [d]; exact hk
        · intro k hk; rw [e]; exact hk
    · next hin =>
      split at h
      · -- outputs
        next ops hout =>
        split at h
        · simp at h
        · next cur hcur =>
          simp only [Except.ok.injEq] at h
          subst h
          obtain ⟨a, b, c', d, e, f⟩ :=
            processOutputNames_spec cur _ st (hinv cur hcur)
          refine ⟨?_, a, ?_, f, ?_, ?_⟩
          · intro c hc
            rw [b, hcur] at hc
            obtain rfl : cur = c := Option.some_inj.mp hc
            rw [a]
            exact hinv cur hcur
          · intro k hk; rw [c']; exact hk
          · intro k hk; rw [d]; exact hk
          · intro k hk; rw [e]; exact hk
      · next hout =>
        split at h
        · -- nands
          next ops hnand =>
          split at h
          · simp at h
          · next cur hcur =>
            simp only [Except.ok.injEq] at h
            subst h
            obtain ⟨a, b, c', d, e, f⟩ :=
              processNandNames_spec cur _ st (hinv cur hcur)
            refine ⟨?_, a, ?_, ?_, f, ?_⟩
            · intro c hc
              rw [b, hcur] at hc
              obtain rfl : cur = c := Option.some_inj.mp hc
              rw [a]
              exact hinv cur hcur
            · intro k hk; rw [c']; exact hk
            · intro k hk; rw [d]; exact hk
            · intro k hk; rw [e]; exact hk
        · next hnand =>
          split at h
          · -- custom_gates
            next ops hcg =>
            split at h
            · simp at h
            · next cur hcur =>
              obtain ⟨a, b, c', d, e, f⟩ :=
                processCustomGateDefs_spec cur ln line _ st st'
                  (hinv cur hcur) h
              refine ⟨?_, a, ?_, ?_, ?_, f⟩
              · intro c hc
                rw [b, hcur] at hc
                obtain rfl : cur = c := Option.some_inj.mp hc
                rw [a]
                exact hinv cur hcur
              · intro k hk; rw [c']; exact hk
              · intro k hk; rw [d]; exact hk
              · intro k hk; rw [e]; exact hk
          · next hcg =>
            split at h
            · -- connections
              next ops hconn =>
              obtain ⟨a, b, c', d, e, f⟩ :=
                processConnectionDefs_spec ln line _ st st' hinv h
              refine ⟨?_, a, ?_, ?_, ?_, ?_⟩
              · intro c hc
                rw [b] at hc
                rw [a]
                exact hinv c hc
              · intro k hk; rw [c']; exact hk
              · intro k hk; rw [d]; exact hk
              · intro k hk; rw [e]; exact hk
              · intro k hk; rw [f]; exact hk
            · next hconn =>
              split at h
              · -- render_nand_gate
                next ops hrn =>
                split at h
                · next p0 p1 p2 p3 prest hparts =>
                  split at h
                  · simp at h
                  · next info hinfo =>
                    split at h
                    · simp at h
                    · next x hx =>
                      split at h
                      · simp at h
                      · next y hy =>
                        split at h
                        · simp at h
                        · next cur hcur =>
                          simp only [Except.ok.injEq] at h
                          subst h
                          exact ⟨fun c hc => hinv c hc, rfl,
                            fun k hk => hk, fun k hk => hk,
                            fun k hk => hk, fun k hk => hk⟩
                · next hparts =>
                  simp only [Except.ok.injEq] at h
                  subst h
                  exact ⟨hinv, rfl, fun k hk => hk, fun k hk => hk,
                    fun k hk => hk, fun k hk => hk⟩
              · next hrn =>
                split at h
                · -- render_custom_gate
                  next ops hrc =>
                  split at h
                  · next p0 p1 p2 p3 prest hparts =>
                    split at h
                    · simp at h
                    · next info hinfo =>
                      split at h
                      · simp at h
                      · next x hx =>
                        split at h
                        · simp at h
                        · next y hy =>
                          split at h
                          · simp at h
                          · next cur hcur =>
                            simp only [Except.ok.injEq] at h
                            subst h
                            exact ⟨fun c hc => hinv c hc, rfl,
                              fun k hk => hk, fun k hk => hk,
                              fun k hk => hk, fun k hk => hk⟩
                  · next hparts =>
                    simp only [Except.ok.injEq] at h
                    subst h
                    exact ⟨hinv, rfl, fun k hk => hk, fun k hk => hk,
                      fun k hk => hk, fun k hk => hk⟩
                · next hrc =>
                  simp at h

/-- The whole line loop: the final result keys are the initial keys
extended (first-occurrence dedup) with every `define_gate` name. -/
theorem parseV0Lines_effect (lines : List Str) :
    ∀ st ln st', stInv st → parseV0Lines st ln lines = .ok st' →
      stInv st' ∧
      keysOf st'.results = List.foldl addKey (keysOf st.results) (dgNames lines) := by
  induction lines with
  | nil =>
    intro st ln st' hinv h
    simp only [parseV0Lines, Except.ok.injEq] at h
    subst h
    exact ⟨hinv, by simp [dgNames]⟩
  | cons line rest ih =>
    intro st ln st' hinv h
    simp only [parseV0Lines] at h
    split at h
    · simp at h
    · next st₁ hp =>
      obtain ⟨hinv₁, hkeys, -, -, -, -⟩ := processLine_spec st ln line st₁ hinv hp
      obtain ⟨hinv', hkeys'⟩ := ih st₁ (ln + 1) st' hinv₁ h
      refine ⟨hinv', ?_⟩
      rw [hkeys', hkeys]
      cases hdg : stripKw line (str "define_gate ") with
      | some nm => simp [dgNames, List.filterMap_cons, hdg]
      | none => simp [dgNames, List.filterMap_cons, hdg]

/-- C6 counterexample: the result collection is keyed by gate name, so two
`define_gate` blocks with the same name produce ONE pair (the second block
replaces the first), not one pair per block: this document has two
`define_gate` lines but parses to a single pair. -/
theorem one_pair_per_block_counterexample :
    (parseText (str "version 0\ndefine_gate a\ndefine_gate a")).map
      List.length = .ok 1 ∧
    (dgNames (linesOf (str "version 0\ndefine_gate a\ndefine_gate a"))).length
      = 2 :=
  ⟨rfl, rfl⟩

/-- C6 amended: a successfully parsed version-0 document yields exactly one
(circuit, optional layout) pair per DISTINCT `define_gate` name
encountered (a repeated name restarts and replaces that name's block), and
each pair carries its block's accumulated layout record exactly when that
record covers every gate identifier in the pair's circuit: when present the
layout records a position for every gate (never a layout missing some
gates), and when every gate is covered the layout is present. -/
theorem parse_result_per_distinct_name (lines : List Str)
    (res : List (LogicGateMap × Option MapRenderSavedState))
    (h : parseV0 lines = .ok res) :
    res.length = (dedupKeys (dgNames lines)).length ∧
    (∀ p ∈ res, ∀ r, p.2 = some r → ∀ g ∈ keysOf p.1.gates,
      r.hasGate g = true) ∧
    (∀ p ∈ res, ∃ r₀ : MapRenderSavedState,
      (p.2 = none ∨ p.2 = some r₀) ∧
      (p.2 = some r₀ ↔ ∀ g ∈ keysOf p.1.gates, r₀.hasGate g = true)) := by
  simp only [parseV0] at h
  split at h
  · simp at h
  · next st hrun =>
    simp only [Except.ok.injEq] at h
    subst h
    obtain ⟨-, hkeys⟩ := parseV0Lines_effect lines initParseState 0 st
      (fun c hc => by simp [initParseState] at hc) hrun
    refine ⟨?_, ?_, ?_⟩
    · have h1 : (assembleResults st).length = st.results.length := by
        simp [assembleResults]
      have h2 : st.results.length = (keysOf st.results).length := by
        simp [keysOf]
      rw [h1, h2, hkeys]
      rfl
    · intro p hp r hr
      simp only [assembleResults, List.mem_map] at hp
      obtain ⟨nm, hnm, rfl⟩ := hp
      dsimp only at hr
      split at hr
      · next hall =>
        intro g hg
        have := List.all_eq_true.mp hall g hg
        obtain rfl : _ = r := Option.some_inj.mp hr
        exact this
      · simp at hr
    · intro p hp
      simp only [assembleResults, List.mem_map] at hp
      obtain ⟨nm, hnm, rfl⟩ := hp
      refine ⟨(alookup st.renderers nm.1).getD MapRenderSavedState.new, ?_⟩
      dsimp only
      split
      · next hall =>
        refine ⟨Or.inr rfl, ?_, fun _ => rfl⟩
        intro _ g hg
        exact List.all_eq_true.mp hall g hg
      · next hall =>
        refine ⟨Or.inl rfl, ?_, ?_⟩
        · intro hc
          exact absurd hc (by simp)
        · intro hcov
          exact absurd (List.all_eq_true.mpr hcov) hall

/-- C6 witness: the three-line document `define_gate a / define_gate b /
define_gate a` has two distinct names, and the theorem yields a result of
length two. -/
theorem parse_result_per_distinct_name_witness :
    ((parseV0 c6Lines).toOption.getD []).length =
      (dedupKeys (dgNames c6Lines)).length ∧
    (dedupKeys (dgNames c6Lines)).length = 2 :=
  ⟨(parse_result_per_distinct_name c6Lines
      ((parseV0 c6Lines).toOption.getD []) rfl).1, rfl⟩

/-- C5 counterexample: a `connections` line before any `define_gate` does
NOT fail with NoCurrentGate — the endpoint resolution fails first (no name
is bound), producing InvalidConnectionPoint, because the source checks
`current` only after both endpoints resolve. -/
theorem connections_before_define_gate_counterexample :
    parseText (str "version 0\nconnections a => b") =
      .error (.invalidConnectionPoint 0 (str "connections a => b") (str "a")) ∧
    LogicGateMapParseError.invalidConnectionPoint 0
      (str "connections a => b") (str "a") ≠
      .noCurrentGate 0 (str "connections a => b") :=
  ⟨rfl, by decide⟩

/-- C5 amended: an `inputs`, `outputs`, `nands` or `custom_gates` directive
line reached before any `define_gate` has been seen makes the parse fail
with NoCurrentGate carrying that line's 0-based line number and raw text.
(This does not extend to `connections`, `render_nand_gate` or
`render_custom_gate` lines: their operand resolution runs before the
current-gate check, as the counterexample shows.) -/
theorem data_directive_before_define_gate_no_current (st : ParseState)
    (ln : Nat) (line ops : Str) (rest : List Str)
    (hcur : st.current = none)
    (hpre : stripKw line (str "inputs ") = some ops ∨
            stripKw line (str "outputs ") = some ops ∨
            stripKw line (str "nands ") = some ops ∨
            stripKw line (str "custom_gates ") = some ops) :
    parseV0Lines st ln (line :: rest) = .error (.noCurrentGate ln line) := by
  rcases hpre with h | h | h | h
  · obtain ⟨t, rfl⟩ := stripKw_some_head 'i' h
    simp only [parseV0Lines, processLine]
    rw [show stripKw ('i' :: t) (str "define_gate ") = none from rfl, h, hcur]
  · obtain ⟨t, rfl⟩ := stripKw_some_head 'o' h
    simp only [parseV0Lines, processLine]
    rw [show stripKw ('o' :: t) (str "define_gate ") = none from rfl,
      show stripKw ('o' :: t) (str "inputs ") = none from rfl, h, hcur]
  · obtain ⟨t, rfl⟩ := stripKw_some_head 'n' h
    simp only [parseV0Lines, processLine]
    rw [show stripKw ('n' :: t) (str "define_gate ") = none from rfl,
      show stripKw ('n' :: t) (str "inputs ") = none from rfl,
      show stripKw ('n' :: t) (str "outputs ") = none from rfl, h, hcur]
  · obtain ⟨t, rfl⟩ := stripKw_some_head 'c' h
    simp only [parseV0Lines, processLine]
    rw [show stripKw ('c' :: t) (str "define_gate ") = none from rfl,
      show stripKw ('c' :: t) (str "inputs ") = none from rfl,
      show stripKw ('c' :: t) (str "outputs ") = none from rfl,
      show stripKw ('c' :: t) (str "nands ") = none from rfl, h, hcur]

/-- C5 witness: an `inputs` line as the first post-version line fails with
NoCurrentGate at line 0, both at the line-loop level (by the theorem) and
through `parse_text`. -/
theorem data_directive_no_current_witness :
    initParseState.current = none ∧
    parseV0Lines initParseState 0 [str "inputs a"] =
      .error (.noCurrentGate 0 (str "inputs a")) ∧
    parseText (str "version 0\ninputs a") =
      .error (.noCurrentGate 0 (str "inputs a")) :=
  ⟨rfl,
   data_directive_before_define_gate_no_current initParseState 0
     (str "inputs a") (str "a") [] rfl (Or.inl rfl),
   rfl⟩

/-- Stripping a keyword from a line that begins with it yields the rest. -/
theorem stripKw_append (p r : Str) : stripKw (p ++ r) p = some r := by
  induction p with
  | nil => cases r <;> rfl
  | cons c p' ih => simp [stripKw, ih]

/-- C7: for a `render_custom_gate` line with at least 4 tokens naming a
bound custom-gate instance and with parsable coordinates, the display name
recorded in the layout is the space-join of the operand tokens starting
from the 3rd token — so it includes the y-coordinate token as its first
word — whereas the corresponding `render_nand_gate` line records the join
starting from the 4th token, excluding both coordinates. -/
theorem render_display_name_offsets (st : ParseState) (ln : Nat)
    (line ops p0 p1 p2 p3 : Str) (prest : List Str)
    (info : GateCreationInfo) (x y : Nat) (cur : Str)
    (r₀ : MapRenderSavedState)
    (hcur : st.current = some cur)
    (hr : alookup st.renderers cur = some r₀)
    (hparts : ((splitWs ops).map trimStr).filter (fun s => ¬ s = []) =
      p0 :: p1 :: p2 :: p3 :: prest)
    (hx : parseUsize p1 = some x) (hy : parseUsize p2 = some y) :
    (stripKw line (str "render_custom_gate ") = some ops →
      alookup st.customGates p0 = some info →
      ∃ st', processLine st ln line = .ok st' ∧
        (alookup st'.renderers cur).bind (fun r => recordedName r info.gateId) =
          some (joinSp (p2 :: p3 :: prest))) ∧
    (stripKw line (str "render_nand_gate ") = some ops →
      alookup st.nands p0 = some info →
      ∃ st', processLine st ln line = .ok st' ∧
        (alookup st'.renderers cur).bind (fun r => recordedName r info.gateId) =
          some (joinSp (p3 :: prest))) := by
  constructor
  · intro hstrip hinfo
    obtain rfl := stripKw_eq_append hstrip
    refine ⟨{ st with renderers := (updateA st.renderers cur (fun r =>
      r.addGate info.gateId (x, y) (joinSp (p2 :: p3 :: prest)))) }, ?_, ?_⟩
    · simp only [processLine,
        show stripKw (str "render_custom_gate " ++ ops) (str "define_gate ") =
          none from rfl,
        show stripKw (str "render_custom_gate " ++ ops) (str "inputs ") =
          none from rfl,
        show stripKw (str "render_custom_gate " ++ ops) (str "outputs ") =
          none from rfl,
        show stripKw (str "render_custom_gate " ++ ops) (str "nands ") =
          none from rfl,
        show stripKw (str "render_custom_gate " ++ ops) (str "custom_gates ") =
          none from rfl,
        show stripKw (str "render_custom_gate " ++ ops) (str "connections ") =
          none from rfl,
        show stripKw (str "render_custom_gate " ++ ops)
          (str "render_nand_gate ") = none from rfl,
        stripKw_append (str "render_custom_gate ") ops,
        hparts, hinfo, hx, hy, hcur]
    · show ((alookup (updateA st.renderers cur (fun r =>
        r.addGate info.gateId (x, y) (joinSp (p2 :: p3 :: prest)))) cur).bind
          (fun r => recordedName r info.gateId)) = _
      rw [alookup_updateA_self, hr]
      simp [recordedName, MapRenderSavedState.addGate, alookup_insertA_self]
  · intro hstrip hinfo
    obtain rfl := stripKw_eq_append hstrip
    refine ⟨{ st with renderers := (updateA st.renderers cur (fun r =>
      r.addGate info.gateId (x, y) (joinSp (p3 :: prest)))) }, ?_, ?_⟩
    · simp only [processLine,
        show stripKw (str "render_nand_gate " ++ ops) (str "define_gate ") =
          none from rfl,
        show stripKw (str "render_nand_gate " ++ ops) (str "inputs ") =
          none from rfl,
        show stripKw (str "render_nand_gate " ++ ops) (str "outputs ") =
          none from rfl,
        show stripKw (str "render_nand_gate " ++ ops) (str "nands ") =
          none from rfl,
        show stripKw (str "render_nand_gate " ++ ops) (str "custom_gates ") =
          none from rfl,
        show stripKw (str "render_nand_gate " ++ ops) (str "connections ") =
          none from rfl,
        stripKw_append (str "render_nand_gate ") ops,
        hparts, hinfo, hx, hy, hcur]
    · show ((alookup (updateA st.renderers cur (fun r =>
        r.addGate info.gateId (x, y) (joinSp (p3 :: prest)))) cur).bind
          (fun r => recordedName r info.gateId)) = _
      rw [alookup_updateA_self, hr]
      simp [recordedName, MapRenderSavedState.addGate, alookup_insertA_self]

/-- C7 witness: in a state binding custom instance `c` (gate id 9) and
NAND instance `n` (gate id 3), the line `render_custom_gate c 10 20 my
gate` records the display name "20 my gate" (the y coordinate leaks into
the name), while `render_nand_gate n 10 20 my gate` records "my gate". -/
theorem render_display_name_offsets_witness :
    (∃ st', processLine c7State 0 (str "render_custom_gate c 10 20 my gate") =
        .ok st' ∧
      (alookup st'.renderers (str "top")).bind (fun r => recordedName r 9) =
        some (str "20 my gate")) ∧
    (∃ st', processLine c7State 0 (str "render_nand_gate n 10 20 my gate") =
        .ok st' ∧
      (alookup st'.renderers (str "top")).bind (fun r => recordedName r 3) =
        some (str "my gate")) :=
  ⟨(render_display_name_offsets c7State 0
      (str "render_custom_gate c 10 20 my gate") (str "c 10 20 my gate")
      (str "c") (str "10") (str "20") (str "my") [str "gate"]
      (GateCreationInfo.new 9 [] []) 10 20 (str "top")
      MapRenderSavedState.new rfl rfl rfl rfl rfl).1 rfl rfl,
   (render_display_name_offsets c7State 0
      (str "render_nand_gate n 10 20 my gate") (str "n 10 20 my gate")
      (str "n") (str "10") (str "20") (str "my") [str "gate"]
      (GateCreationInfo.new 3 [4, 5] [6]) 10 20 (str "top")
      MapRenderSavedState.new rfl rfl rfl rfl rfl).2 rfl rfl⟩

/-- C8: the four name-binding symbol tables are shared across the entire
document: a `define_gate` line leaves all four unchanged (no per-block
reset); no successfully processed line ever drops a binding, so a name
bound while parsing one circuit definition remains resolvable during every
later definition; and binding a name again replaces the earlier binding —
an `inputs` directive rebinding name `n` makes the table yield the freshly
allocated identifier. -/
theorem symbol_tables_document_wide (st : ParseState) (ln : Nat) (line : Str) :
    (∀ name, stripKw line (str "define_gate ") = some name →
      ∃ st', processLine st ln line = .ok st' ∧
        st'.inputs = st.inputs ∧ st'.outputs = st.outputs ∧
        st'.nands = st.nands ∧ st'.customGates = st.customGates) ∧
    (∀ st', stInv st → processLine st ln line = .ok st' →
      (∀ k, (alookup st.inputs k).isSome = true →
        (alookup st'.inputs k).isSome = true) ∧
      (∀ k, (alookup st.outputs k).isSome = true →
        (alookup st'.outputs k).isSome = true) ∧
      (∀ k, (alookup st.nands k).isSome = true →
        (alookup st'.nands k).isSome = true) ∧
      (∀ k, (alookup st.customGates k).isSome = true →
        (alookup st'.customGates k).isSome = true)) ∧
    (∀ ops n cur, stripKw line (str "inputs ") = some ops →
      ((splitWs ops).map trimStr).filter (fun x => ¬ x = []) = [n] →
      st.current = some cur →
      ∃ st', processLine st ln line = .ok st' ∧
        alookup st'.inputs n =
          some ((alookup st.results cur).getD LogicGateMap.empty).idGenerator) := by
  refine ⟨?_, ?_, ?_⟩
  · intro name h
    refine ⟨{ st with results := insertA st.results name LogicGateMap.empty,
                      renderers := insertA st.renderers name MapRenderSavedState.new,
                      current := some name }, ?_, rfl, rfl, rfl, rfl⟩
    simp only [processLine, h]
  · intro st' hinv h
    obtain ⟨-, -, a, b, c', d⟩ := processLine_spec st ln line st' hinv h
    exact ⟨a, b, c', d⟩
  · intro ops n cur hops hnames hcur
    obtain ⟨t, rfl⟩ := stripKw_some_head 'i' hops
    refine ⟨processInputNames st cur [n], ?_, ?_⟩
    · simp only [processLine,
        show stripKw ('i' :: t) (str "define_gate ") = none from rfl,
        hops, hcur, hnames]
    · show alookup (processInputNames st cur [n]).inputs n = _
      simp only [processInputNames]
      show alookup (insertA st.inputs n _) n = _
      rw [alookup_insertA_self]
      rfl

/-- C8 witness: in a mid-parse state with input name `a` bound and circuit
`g` current, a `define_gate h` line leaves all four symbol tables
unchanged, and re-binding `a` with an `inputs a` line replaces the old
binding (identifier 7) with the freshly allocated identifier 0. -/
theorem symbol_tables_document_wide_witness :
    (∃ st', processLine c8State 3 (str "define_gate h") = .ok st' ∧
      st'.inputs = c8State.inputs ∧ st'.outputs = c8State.outputs ∧
      st'.nands = c8State.nands ∧ st'.customGates = c8State.customGates) ∧
    alookup c8State.inputs (str "a") = some 7 ∧
    (∃ st', processLine c8State 4 (str "inputs a") = .ok st' ∧
      alookup st'.inputs (str "a") = some 0) :=
  ⟨(symbol_tables_document_wide c8State 3 (str "define_gate h")).1
      (str "h") rfl,
   rfl,
   (symbol_tables_document_wide c8State 4 (str "inputs a")).2.2
      (str "a") (str "a") (str "g") rfl rfl rfl⟩

/-- C10 witness: `overrideExample` is well-formed, and one application of
the theorem yields its stepped circuit with unchanged topology. -/
theorem step_preserves_topology_witness :
    overrideExample.wf = true ∧
    (∃ m', overrideExample.step = some m' ∧
      keysOf m'.inputs = keysOf overrideExample.inputs ∧
      keysOf m'.outputs = keysOf overrideExample.outputs ∧
      keysOf m'.middleSignals = keysOf overrideExample.middleSignals ∧
      keysOf m'.gates = keysOf overrideExample.gates ∧
      m'.connections = overrideExample.connections) :=
  ⟨rfl, step_preserves_topology overrideExample rfl⟩

end LGD
